import Mathlib

/-!
Shallow embedding of the scheduling core of the `nicopowa/launchpad`
web MIDI sampler (source files `src/js/launchpad35.js` and
`src/js/launchpad37.js`), together with proofs and refutations of the
behavioural claims made by the specification.

JavaScript numbers are modelled by `ℚ` (the arithmetic relations the
spec states are exact, and every constant in the source is a decimal
literal), JS `Map`s by insertion-ordered association lists, and JS
arrays (whose out-of-range writes grow the array) by lists with an
explicit growing write.
-/

namespace Launchpad

/-- `const BEAT_STEPS = 32` (steps per pattern). -/
def BEAT_STEPS : Nat := 32

/-- `const STEPS_PER_QUARTER = 8`. -/
def STEPS_PER_QUARTER : Nat := 8

/-! ### JS `Map` as an insertion-ordered association list -/

/-- `map.get(k)`: the value stored at the first (unique) entry for `k`;
`none` models `undefined`. -/
def mapGet : List (Nat × α) → Nat → Option α
  | [], _ => none
  | p :: m, k => if p.1 = k then some p.2 else mapGet m k

/-- `map.has(k)`. -/
def mapHas (m : List (Nat × α)) (k : Nat) : Bool :=
  (mapGet m k).isSome

/-- `map.set(k, v)`: updates the entry in place if the key is present,
otherwise appends it (JS `Map` iteration is in insertion order). -/
def mapSet (m : List (Nat × α)) (k : Nat) (v : α) : List (Nat × α) :=
  if mapHas m k then
    m.map (fun p => if p.1 = k then (k, v) else p)
  else m ++ [(k, v)]

/-- A JS array write `arr[i] = v`: in range it updates, out of range it
grows the array to length `i + 1`; the intermediate holes read back as
the given default (the source always reads holes through `?? d` /
`|| d` with the same default the arrays were filled with). -/
def jsWrite (l : List α) (i : Nat) (v d : α) : List α :=
  if i < l.length then l.set i v
  else l ++ List.replicate (i - l.length) d ++ [v]

theorem mapGet_updateKey (m : List (Nat × α)) (k : Nat) (v : α)
    (hm : mapHas m k = true) :
    mapGet (m.map (fun p => if p.1 = k then (k, v) else p)) k = some v := by
  induction m with
  | nil => simp [mapHas, mapGet] at hm
  | cons p m ih =>
    by_cases hp : p.1 = k
    · simp [mapGet, hp]
    · have hm' : mapHas m k = true := by
        simpa [mapHas, mapGet, hp] using hm
      simpa [mapGet, hp] using ih hm'

theorem mapGet_updateKey_ne (m : List (Nat × α)) (k k' : Nat) (v : α)
    (h : k' ≠ k) :
    mapGet (m.map (fun p => if p.1 = k then (k, v) else p)) k' = mapGet m k' := by
  induction m with
  | nil => rfl
  | cons p m ih =>
    by_cases hp : p.1 = k
    · have h1 : (k : Nat) ≠ k' := fun hh => h hh.symm
      have h2 : p.1 ≠ k' := fun hh => h (hh.symm.trans hp)
      simp [mapGet, hp, h1, h2, ih]
    · by_cases hk' : p.1 = k'
      · simp [mapGet, hp, hk', h]
      · simp [mapGet, hp, hk', ih]

theorem mapGet_append_single (m : List (Nat × α)) (k : Nat) (v : α)
    (hm : mapHas m k = false) :
    mapGet (m ++ [(k, v)]) k = some v := by
  induction m with
  | nil => simp [mapGet]
  | cons p m ih =>
    have hp : p.1 ≠ k := by
      intro hk
      simp [mapHas, mapGet, hk] at hm
    have hm' : mapHas m k = false := by
      simpa [mapHas, mapGet, hp] using hm
    simpa [mapGet, hp] using ih hm'

theorem mapGet_append_single_ne (m : List (Nat × α)) (k k' : Nat) (v : α)
    (h : k' ≠ k) :
    mapGet (m ++ [(k, v)]) k' = mapGet m k' := by
  induction m with
  | nil => simp [mapGet, Ne.symm h]
  | cons p m ih =>
    by_cases hk' : p.1 = k'
    · simp [mapGet, hk']
    · simp [mapGet, hk', ih]

theorem mapGet_mapSet_self (m : List (Nat × α)) (k : Nat) (v : α) :
    mapGet (mapSet m k v) k = some v := by
  unfold mapSet
  split <;> rename_i hm
  · exact mapGet_updateKey m k v hm
  · exact mapGet_append_single m k v (by simpa using hm)

theorem mapGet_mapSet_ne (m : List (Nat × α)) (k k' : Nat) (v : α) (h : k' ≠ k) :
    mapGet (mapSet m k v) k' = mapGet m k' := by
  unfold mapSet
  split
  · exact mapGet_updateKey_ne m k k' v h
  · exact mapGet_append_single_ne m k k' v h

theorem length_mapSet (m : List (Nat × α)) (k : Nat) (v : α) :
    (mapSet m k v).length = if mapHas m k then m.length else m.length + 1 := by
  unfold mapSet
  split <;> simp_all

theorem length_jsWrite (l : List α) (i : Nat) (v d : α) :
    (jsWrite l i v d).length = if i < l.length then l.length else i + 1 := by
  unfold jsWrite
  split <;> rename_i h
  · simp [h]
  · have : l.length ≤ i := Nat.le_of_not_lt h
    simp [h, List.length_append, List.length_replicate]
    omega

theorem getElem?_jsWrite_self (l : List α) (i : Nat) (v d : α) :
    (jsWrite l i v d)[i]? = some v := by
  unfold jsWrite
  split <;> rename_i h
  · exact List.getElem?_set_self h
  · rw [List.append_assoc, List.getElem?_append_right (Nat.le_of_not_lt h)]
    rw [List.getElem?_append_right (by simp)]
    simp

/-! ### Precision Clock (`class Clock`, launchpad35.js lines 2950–3267)

State of a `Clock` instance. `scheduledEvents` holds the ids of the
pending silent-oscillator timers tracked by `this.scheduledEvents`;
`scheduledNotes` the per-step visual callback ids; the `setTimeout`
handle stored in `this.scheduleTimeout` by `scheduleAhead` is modelled
by the flag `scheduleTimeoutPending` (the source keeps at most one and
never cancels it).  `recalibrationArmed` records whether
`startRecalibrationInterval()` has been invoked. -/
structure Clock where
  bpm : ℚ
  isPlaying : Bool
  currentStep : Nat
  nextStepTime : ℚ
  stepDuration : ℚ
  lookAhead : ℚ
  scheduledEvents : List Nat
  scheduledNotes : List (Nat × Nat)
  scheduleTimeoutPending : Bool
  recalibrationArmed : Bool
deriving DecidableEq, Repr

namespace Clock

/-- `calculateStepDuration()`: `1 / ((bpm / 60) * STEPS_PER_QUARTER)`. -/
def calculateStepDuration (bpm : ℚ) : ℚ :=
  1 / ((bpm / 60) * (STEPS_PER_QUARTER : ℚ))

/-- The `Clock` constructor (`bpm = 120` default); the
`startRecalibrationInterval()` call at the end is commented out in the
source, so the interval is never armed. -/
def init (bpm : ℚ := 120) : Clock :=
  { bpm := bpm
    isPlaying := false
    currentStep := 0
    nextStepTime := 0
    stepDuration := calculateStepDuration bpm
    lookAhead := 1/5
    scheduledEvents := []
    scheduledNotes := []
    scheduleTimeoutPending := false
    recalibrationArmed := false }

/-- The body of `scheduleAhead`'s `while (nextStepTime < endTime)` loop:
each iteration emits `(currentStep, nextStepTime)` through
`scheduleStep` and then runs `advanceStep()` (`nextStepTime +=
stepDuration; currentStep = (currentStep + 1) % BEAT_STEPS`).  The
source diverges when `stepDuration ≤ 0`; such states are unreachable
(the tempo is clamped to `[40, 240]`), and the loop is modelled only on
the terminating cases. Returns the emitted `(step, targetTime)` pairs
and the final `(currentStep, nextStepTime)`. -/
def scheduleLoop (step : Nat) (t endT d : ℚ) : List (Nat × ℚ) × Nat × ℚ :=
  if h : t < endT ∧ 0 < d then
    let rest := scheduleLoop ((step + 1) % BEAT_STEPS) (t + d) endT d
    ((step, t) :: rest.1, rest.2)
  else ([], step, t)
termination_by (⌈(endT - t) / d⌉).toNat
decreasing_by
  have hd : 0 < d := h.2
  have hpos : 0 < (endT - t) / d := div_pos (by linarith [h.1]) hd
  have hone : 1 ≤ ⌈(endT - t) / d⌉ := by
    exact_mod_cast Int.ceil_pos.mpr hpos
  have hstep : (endT - (t + d)) / d = (endT - t) / d - 1 := by
    field_simp
    ring
  have : ⌈(endT - (t + d)) / d⌉ = ⌈(endT - t) / d⌉ - 1 := by
    rw [hstep, Int.ceil_sub_one]
  omega

/-- `advanceStep()`. -/
def advanceStep (c : Clock) : Clock :=
  { c with nextStepTime := c.nextStepTime + c.stepDuration
           currentStep := (c.currentStep + 1) % BEAT_STEPS }

/-- `scheduleAhead()` called with the audio clock at `now`.  It uses the
fixed 200 ms window `endTime = now + 0.2`, emits (via `scheduleStep`,
which returns without calling the pattern callback when `isPlaying` is
false) every step whose target time falls before `endTime`, advancing
the step state each iteration, and finally re-arms the `setTimeout`
reschedule callback iff still playing. -/
def scheduleAhead (c : Clock) (now : ℚ) : List (Nat × ℚ) × Clock :=
  let endTime := now + 1/5
  let r := scheduleLoop c.currentStep c.nextStepTime endTime c.stepDuration
  (if c.isPlaying then r.1 else [],
   { c with currentStep := r.2.1
            nextStepTime := r.2.2
            scheduleTimeoutPending := c.isPlaying })

/-- `clearScheduledEvents()`: stops and forgets the tracked oscillator
timers and clears the scheduled-notes map (the visual `setTimeout`
callbacks and the `scheduleTimeout` handle are NOT cancelled by it). -/
def clearScheduledEvents (c : Clock) : Clock :=
  { c with scheduledEvents := [], scheduledNotes := [] }

/-- `stop()`. -/
def stop (c : Clock) : Clock :=
  ({ c with isPlaying := false, currentStep := 0 }).clearScheduledEvents

/-- `start()` with the audio clock at `now`: no-op while playing,
otherwise resets the step index, anchors `nextStepTime` to `now` and
immediately runs one `scheduleAhead` pass.  Returns the emitted events. -/
def start (c : Clock) (now : ℚ) : List (Nat × ℚ) × Clock :=
  if c.isPlaying then ([], c)
  else
    ({ c with isPlaying := true, currentStep := 0, nextStepTime := now }).scheduleAhead now

/-- The `setTimeout` callback armed by `scheduleAhead` firing at audio
time `now`: it is consumed and runs `scheduleAhead()` again (the body
only re-arms when still playing). Yields nothing when no timeout is
pending. -/
def fireScheduleTimeout (c : Clock) (now : ℚ) : List (Nat × ℚ) × Clock :=
  if c.scheduleTimeoutPending then
    ({ c with scheduleTimeoutPending := false }).scheduleAhead now
  else ([], c)

/-- `setBPM(bpm)` with the audio clock at `now`: clamps to `[40, 240]`,
recomputes the step duration, and reschedules fresh when playing and
the clamped change exceeds 5 BPM. -/
def setBPM (c : Clock) (bpm : ℚ) (now : ℚ) : List (Nat × ℚ) × Clock :=
  let prevBpm := c.bpm
  let c := { c with bpm := max 40 (min 240 bpm) }
  let c := { c with stepDuration := calculateStepDuration c.bpm }
  if c.isPlaying ∧ |prevBpm - c.bpm| > 5 then
    c.clearScheduledEvents.scheduleAhead now
  else ([], c)

/-- `startRecalibrationInterval()` (present in the source but never
called: the constructor call is commented out). -/
def startRecalibrationInterval (c : Clock) : Clock :=
  { c with recalibrationArmed := true }

/-- `recalibrate()` with the audio clock at `now`: drift is
`(nextStepTime - stepDuration) - now`; above the 50 ms threshold the
clock resynchronises `nextStepTime` to `now + stepDuration`. -/
def recalibrate (c : Clock) (now : ℚ) : Clock :=
  let expectedTime := c.nextStepTime - c.stepDuration
  let drift := expectedTime - now
  if |drift| > 1/20 then { c with nextStepTime := now + c.stepDuration }
  else c

end Clock

/-- Number of iterations of `scheduleAhead`'s while loop from time `t`
with window end `endT` and step duration `d`. -/
def passCount (t endT d : ℚ) : Nat := (⌈(endT - t) / d⌉).toNat

theorem passCount_rec (t endT d : ℚ) (hd : 0 < d) (hlt : t < endT) :
    1 ≤ passCount t endT d ∧ passCount (t + d) endT d = passCount t endT d - 1 := by
  have hpos : 0 < (endT - t) / d := div_pos (by linarith) hd
  have h1 : 1 ≤ ⌈(endT - t) / d⌉ := by exact_mod_cast Int.ceil_pos.mpr hpos
  have hstep : (endT - (t + d)) / d = (endT - t) / d - 1 := by
    field_simp
    ring
  have hceil : ⌈(endT - (t + d)) / d⌉ = ⌈(endT - t) / d⌉ - 1 := by
    rw [hstep, Int.ceil_sub_one]
  constructor
  · simp only [passCount]
    omega
  · simp only [passCount, hceil]
    omega

theorem passCount_eq_zero (t endT d : ℚ) (hd : 0 < d) (hnt : ¬ t < endT) :
    passCount t endT d = 0 := by
  have h0 : (endT - t) / d ≤ 0 :=
    div_nonpos_of_nonpos_of_nonneg (by linarith) hd.le
  have : ⌈(endT - t) / d⌉ ≤ 0 := Int.ceil_le.mpr (by exact_mod_cast h0)
  simp only [passCount]
  omega

theorem scheduleLoop_closed_form (d : ℚ) (hd : 0 < d) :
    ∀ (n step : Nat) (t endT : ℚ), step < BEAT_STEPS →
      passCount t endT d = n →
      Clock.scheduleLoop step t endT d =
        ((List.range n).map (fun i => ((step + i) % BEAT_STEPS, t + i * d)),
         (step + n) % BEAT_STEPS, t + n * d) := by
  intro n
  induction n with
  | zero =>
    intro step t endT hs hn
    have hnt : ¬ t < endT := by
      intro hlt
      have := (passCount_rec t endT d hd hlt).1
      omega
    rw [Clock.scheduleLoop]
    simp [hnt, Nat.mod_eq_of_lt hs]
  | succ n ih =>
    intro step t endT hs hn
    have hlt : t < endT := by
      by_contra hnt
      rw [passCount_eq_zero t endT d hd hnt] at hn
      exact Nat.succ_ne_zero n hn.symm
    have hrec : passCount (t + d) endT d = n := by
      have := passCount_rec t endT d hd hlt
      omega
    have hs' : (step + 1) % BEAT_STEPS < BEAT_STEPS :=
      Nat.mod_lt _ (by norm_num [BEAT_STEPS])
    have hind := ih ((step + 1) % BEAT_STEPS) (t + d) endT hs' hrec
    rw [Clock.scheduleLoop, dif_pos ⟨hlt, hd⟩, hind]
    have hmod : ∀ i : Nat, ((step + 1) % BEAT_STEPS + i) % BEAT_STEPS
        = (step + (i + 1)) % BEAT_STEPS := by
      intro i
      conv_lhs => rw [Nat.mod_add_mod]
      congr 1
      omega
    refine Prod.ext ?_ (Prod.ext ?_ ?_)
    · show (step, t) :: _ = _
      rw [List.range_succ_eq_map, List.map_cons, List.map_map]
      refine congrArg₂ _ ?_ (List.map_congr_left ?_)
      · simp [Nat.mod_eq_of_lt hs]
      · intro i _
        simp only [Function.comp_apply]
        refine Prod.ext ?_ ?_
        · simpa using hmod i
        · show t + d + i * d = _
          push_cast
          ring
    · simpa using hmod n
    · show t + d + n * d = _
      push_cast
      ring

theorem passCount_bounds (t endT d : ℚ) (hd : 0 < d) :
    (∀ i : Nat, i < passCount t endT d → t + i * d < endT) ∧
      endT ≤ t + passCount t endT d * d := by
  set x := (endT - t) / d with hx
  constructor
  · intro i hi
    have hi' : i < (⌈x⌉).toNat := by simpa [passCount, ← hx] using hi
    have hceil : ⌈x⌉ = ((passCount t endT d : Nat) : ℤ) := by
      simp only [passCount, ← hx]
      omega
    have h1 : (⌈x⌉ : ℚ) < x + 1 := by
      exact_mod_cast Int.ceil_lt_add_one x
    rw [hceil] at h1
    push_cast at h1
    have hiq : (i : ℚ) + 1 ≤ (passCount t endT d : ℚ) := by exact_mod_cast hi
    have hix : (i : ℚ) < x := by linarith
    have := (lt_div_iff₀ hd).mp (hx ▸ hix)
    linarith
  · have h1 : x ≤ (⌈x⌉ : ℚ) := Int.le_ceil x
    have h2 : (⌈x⌉ : ℤ) ≤ ((passCount t endT d : Nat) : ℤ) := by
      simp only [passCount, ← hx]
      omega
    have h2' : ((⌈x⌉ : ℤ) : ℚ) ≤ ((passCount t endT d : Nat) : ℚ) := by
      exact_mod_cast h2
    have hxle : x ≤ (passCount t endT d : ℚ) := le_trans h1 h2'
    have := (div_le_iff₀ hd).mp (hx ▸ hxle)
    linarith

theorem scheduleAhead_spec (c : Clock) (now : ℚ)
    (hp : c.isPlaying = true) (hd : 0 < c.stepDuration)
    (hs : c.currentStep < BEAT_STEPS) :
    c.scheduleAhead now =
      ((List.range (passCount c.nextStepTime (now + 1/5) c.stepDuration)).map
         (fun i => ((c.currentStep + i) % BEAT_STEPS,
                    c.nextStepTime + i * c.stepDuration)),
       { c with
         currentStep := (c.currentStep +
           passCount c.nextStepTime (now + 1/5) c.stepDuration) % BEAT_STEPS
         nextStepTime := c.nextStepTime +
           (passCount c.nextStepTime (now + 1/5) c.stepDuration) * c.stepDuration
         scheduleTimeoutPending := true }) := by
  have h := scheduleLoop_closed_form c.stepDuration hd
    (passCount c.nextStepTime (now + 1/5) c.stepDuration)
    c.currentStep c.nextStepTime (now + 1/5) hs rfl
  simp only [Clock.scheduleAhead, h, hp, if_true]

/-- A sequence of reschedule-callback firings at the given audio times
(the `setTimeout` armed by each `scheduleAhead` firing and running the
next pass), collecting all emitted step events. -/
def runPasses : Clock → List ℚ → List (Nat × ℚ) × Clock
  | c, [] => ([], c)
  | c, now :: rest =>
    let r := c.fireScheduleTimeout now
    let r2 := runPasses r.2 rest
    (r.1 ++ r2.1, r2.2)

/-- A whole run: `start()` at audio time `now₀` followed by the armed
reschedule callbacks firing at the times in `nows`. -/
def Clock.run (c : Clock) (now₀ : ℚ) (nows : List ℚ) : List (Nat × ℚ) × Clock :=
  let r := c.start now₀
  let r2 := runPasses r.2 nows
  (r.1 ++ r2.1, r2.2)

/-- Invariant maintained between scheduling passes of a running clock
anchored at `t₀` with step duration `d`, after `k` emitted steps. -/
def RunInv (t₀ d : ℚ) (k : Nat) (c : Clock) : Prop :=
  c.isPlaying = true ∧ c.scheduleTimeoutPending = true ∧ c.stepDuration = d ∧
    c.currentStep = k % BEAT_STEPS ∧ c.nextStepTime = t₀ + k * d

theorem fireScheduleTimeout_spec (c : Clock) (now t₀ d : ℚ) (k : Nat)
    (hd : 0 < d) (hinv : RunInv t₀ d k c) :
    ∃ m, (c.fireScheduleTimeout now).1 =
        (List.range m).map (fun i => ((k + i) % BEAT_STEPS, t₀ + (k + i) * d)) ∧
      RunInv t₀ d (k + m) (c.fireScheduleTimeout now).2 := by
  obtain ⟨hp, hpend, hsd, hcs, hnt⟩ := hinv
  set c' : Clock := { c with scheduleTimeoutPending := false } with hc'
  have hp' : c'.isPlaying = true := hp
  have hsd' : c'.stepDuration = d := hsd
  have hcs' : c'.currentStep = k % BEAT_STEPS := hcs
  have hnt' : c'.nextStepTime = t₀ + k * d := hnt
  have hfire : c.fireScheduleTimeout now = c'.scheduleAhead now := by
    simp [Clock.fireScheduleTimeout, hpend, hc']
  have hs' : c'.currentStep < BEAT_STEPS := by
    rw [hcs']
    exact Nat.mod_lt _ (by norm_num [BEAT_STEPS])
  have hspec := scheduleAhead_spec c' now hp' (by rw [hsd']; exact hd) hs'
  refine ⟨passCount c'.nextStepTime (now + 1/5) c'.stepDuration,
    ?_, ?_, ?_, ?_, ?_, ?_⟩
  · rw [hfire, hspec]
    refine List.map_congr_left ?_
    intro i _
    refine Prod.ext ?_ ?_
    · show (c'.currentStep + i) % BEAT_STEPS = (k + i) % BEAT_STEPS
      rw [hcs', Nat.mod_add_mod]
    · show c'.nextStepTime + i * c'.stepDuration = t₀ + ((k : ℚ) + i) * d
      rw [hnt', hsd']
      ring
  · rw [hfire, hspec]
    exact hp'
  · rw [hfire, hspec]
  · rw [hfire, hspec]
    exact hsd'
  · rw [hfire, hspec]
    show (c'.currentStep + _) % BEAT_STEPS = _
    rw [hcs', Nat.mod_add_mod]
  · rw [hfire, hspec]
    show c'.nextStepTime + _ * c'.stepDuration =
      t₀ + ((k + passCount c'.nextStepTime (now + 1/5) c'.stepDuration : Nat) : ℚ) * d
    rw [hnt', hsd']
    push_cast
    ring

theorem runPasses_events (t₀ d : ℚ) (hd : 0 < d) :
    ∀ (nows : List ℚ) (c : Clock) (k : Nat), RunInv t₀ d k c →
      ∀ j, j < ((runPasses c nows).1).length →
        ((runPasses c nows).1)[j]? =
          some ((k + j) % BEAT_STEPS, t₀ + (k + j) * d) := by
  intro nows
  induction nows with
  | nil =>
    intro c k _ j hj
    simp [runPasses] at hj
  | cons now rest ih =>
    intro c k hinv j hj
    obtain ⟨m, hev, hinv'⟩ := fireScheduleTimeout_spec c now t₀ d k hd hinv
    have hlen : ((c.fireScheduleTimeout now).1).length = m := by
      simp [hev]
    show ((c.fireScheduleTimeout now).1 ++
        (runPasses (c.fireScheduleTimeout now).2 rest).1)[j]? = _
    by_cases hjm : j < m
    · rw [List.getElem?_append_left (by omega)]
      rw [hev]
      simp [hjm]
    · have hmj : m ≤ j := Nat.le_of_not_lt hjm
      rw [List.getElem?_append_right (by omega)]
      have hrec := ih (c.fireScheduleTimeout now).2 (k + m) hinv' (j - m) (by
        show j - m < ((runPasses (c.fireScheduleTimeout now).2 rest).1).length
        simp only [runPasses, List.length_append] at hj ⊢
        omega)
      have hjk : k + m + (j - m) = k + j := by omega
      have hq : ((k + m : Nat) : ℚ) + ((j - m : Nat) : ℚ) = (k : ℚ) + (j : ℚ) := by
        rw [Nat.cast_sub hmj]
        push_cast
        ring
      rw [hjk, hq] at hrec
      rw [hlen, hrec]

theorem run_events (c : Clock) (now₀ : ℚ) (nows : List ℚ)
    (hplay : c.isPlaying = false) (hd : 0 < c.stepDuration) :
    ∀ j, j < ((c.run now₀ nows).1).length →
      ((c.run now₀ nows).1)[j]? =
        some (j % BEAT_STEPS, now₀ + j * c.stepDuration) := by
  set c' : Clock :=
    { c with isPlaying := true, currentStep := 0, nextStepTime := now₀ } with hc'
  have hstart : c.start now₀ = c'.scheduleAhead now₀ := by
    simp [Clock.start, hplay, hc']
  have hspec := scheduleAhead_spec c' now₀ rfl (by
      show 0 < c'.stepDuration
      simpa [hc'] using hd)
    (by norm_num [hc', BEAT_STEPS])
  set n₀ := passCount c'.nextStepTime (now₀ + 1/5) c'.stepDuration with hn₀
  have hev : (c.start now₀).1 =
      (List.range n₀).map (fun i => (i % BEAT_STEPS, now₀ + i * c.stepDuration)) := by
    rw [hstart, hspec]
    simp [hc']
  have hinv : RunInv now₀ c.stepDuration n₀ (c.start now₀).2 := by
    rw [hstart, hspec]
    refine ⟨rfl, rfl, rfl, ?_, ?_⟩
    · show (c'.currentStep + n₀) % BEAT_STEPS = n₀ % BEAT_STEPS
      simp [hc']
    · show c'.nextStepTime + (n₀ : ℚ) * c'.stepDuration
        = now₀ + (n₀ : ℚ) * c.stepDuration
      simp [hc']
  intro j hj
  have hlen : ((c.start now₀).1).length = n₀ := by simp [hev]
  show ((c.start now₀).1 ++ (runPasses (c.start now₀).2 nows).1)[j]? = _
  by_cases hjn : j < n₀
  · rw [List.getElem?_append_left (by omega)]
    rw [hev]
    simp [hjn]
  · have hnj : n₀ ≤ j := Nat.le_of_not_lt hjn
    rw [List.getElem?_append_right (by omega)]
    have hrec := runPasses_events now₀ c.stepDuration hd nows (c.start now₀).2 n₀ hinv
      (j - n₀) (by
        show j - n₀ < ((runPasses (c.start now₀).2 nows).1).length
        simp only [Clock.run, List.length_append] at hj ⊢
        omega)
    have hjk : n₀ + (j - n₀) = j := by omega
    have hq : ((n₀ : Nat) : ℚ) + ((j - n₀ : Nat) : ℚ) = (j : ℚ) := by
      rw [Nat.cast_sub hnj]
      ring
    rw [hjk, hq] at hrec
    rw [hlen, hrec]

/-- **C1**: while the Clock is running between `start()` and `stop()`,
the emitted step events' target times increase by exactly
`stepDuration` per event and the step indices by 1 modulo
`BEAT_STEPS`, with no repeats or skips (the `j`-th event of the run is
exactly `(j % BEAT_STEPS, now₀ + j·stepDuration)`); and each
scheduling pass emits exactly the steps whose target time falls before
`now + 0.2` (every emitted time is below the window end and the final
`nextStepTime` has reached it), then advances `nextStepTime` by
`stepDuration` per emitted step and the step index modulo the step
count. -/
theorem clock_step_event_stream
    (c cp : Clock) (now₀ now : ℚ) (nows : List ℚ)
    (hplay : c.isPlaying = false) (hd : 0 < c.stepDuration)
    (hp : cp.isPlaying = true) (hdp : 0 < cp.stepDuration)
    (hsp : cp.currentStep < BEAT_STEPS) :
    (∀ j, j < ((c.run now₀ nows).1).length →
        ((c.run now₀ nows).1)[j]? =
          some (j % BEAT_STEPS, now₀ + j * c.stepDuration)) ∧
    (∀ e ∈ (cp.scheduleAhead now).1, e.2 < now + 1/5) ∧
    now + 1/5 ≤ (cp.scheduleAhead now).2.nextStepTime ∧
    (cp.scheduleAhead now).2.nextStepTime
      = cp.nextStepTime + ((cp.scheduleAhead now).1).length * cp.stepDuration ∧
    (cp.scheduleAhead now).2.currentStep
      = (cp.currentStep + ((cp.scheduleAhead now).1).length) % BEAT_STEPS ∧
    (∀ j, j < ((cp.scheduleAhead now).1).length →
        ((cp.scheduleAhead now).1)[j]?
          = some ((cp.currentStep + j) % BEAT_STEPS,
                  cp.nextStepTime + j * cp.stepDuration)) := by
  have hspec := scheduleAhead_spec cp now hp hdp hsp
  have hbounds := passCount_bounds cp.nextStepTime (now + 1/5) cp.stepDuration hdp
  have hlen : ((cp.scheduleAhead now).1).length
      = passCount cp.nextStepTime (now + 1/5) cp.stepDuration := by
    rw [hspec]
    simp
  refine ⟨run_events c now₀ nows hplay hd, ?_, ?_, ?_, ?_, ?_⟩
  · intro e he
    rw [hspec] at he
    simp only [List.mem_map, List.mem_range] at he
    obtain ⟨i, hi, rfl⟩ := he
    exact hbounds.1 i hi
  · rw [hspec]
    have := hbounds.2
    linarith
  · rw [hlen, hspec]
  · rw [hlen, hspec]
  · intro j hj
    rw [hlen] at hj
    rw [hspec]
    rw [List.getElem?_map, List.getElem?_range hj]
    rfl

/-- Witness for `clock_step_event_stream`: the hypotheses hold and the
theorem applies at the freshly constructed clock (`new Clock(ctx)`,
120 BPM) started at audio time 0, and at a concrete running state. -/
theorem clock_step_event_stream_witness :
    ((Clock.init 120).isPlaying = false ∧
      0 < (Clock.init 120).stepDuration ∧
      ({ Clock.init 120 with isPlaying := true } : Clock).isPlaying = true ∧
      0 < ({ Clock.init 120 with isPlaying := true } : Clock).stepDuration ∧
      ({ Clock.init 120 with isPlaying := true } : Clock).currentStep < BEAT_STEPS) ∧
    (∀ j, j < (((Clock.init 120).run 0 [4/25]).1).length →
        (((Clock.init 120).run 0 [4/25]).1)[j]? =
          some (j % BEAT_STEPS, 0 + j * (Clock.init 120).stepDuration)) :=
  ⟨⟨rfl,
    by norm_num [Clock.init, Clock.calculateStepDuration, STEPS_PER_QUARTER],
    rfl,
    by norm_num [Clock.init, Clock.calculateStepDuration, STEPS_PER_QUARTER],
    by norm_num [Clock.init, BEAT_STEPS]⟩,
   (clock_step_event_stream (Clock.init 120)
      { Clock.init 120 with isPlaying := true } 0 0 [4/25] rfl
      (by norm_num [Clock.init, Clock.calculateStepDuration, STEPS_PER_QUARTER])
      rfl
      (by norm_num [Clock.init, Clock.calculateStepDuration, STEPS_PER_QUARTER])
      (by norm_num [Clock.init, BEAT_STEPS])).1⟩

theorem scheduleAhead_stopped_spec (c : Clock) (now : ℚ)
    (hp : c.isPlaying = false) (hd : 0 < c.stepDuration)
    (hs : c.currentStep < BEAT_STEPS) :
    c.scheduleAhead now =
      ([],
       { c with
         currentStep := (c.currentStep +
           passCount c.nextStepTime (now + 1/5) c.stepDuration) % BEAT_STEPS
         nextStepTime := c.nextStepTime +
           (passCount c.nextStepTime (now + 1/5) c.stepDuration) * c.stepDuration
         scheduleTimeoutPending := false }) := by
  have h := scheduleLoop_closed_form c.stepDuration hd
    (passCount c.nextStepTime (now + 1/5) c.stepDuration)
    c.currentStep c.nextStepTime (now + 1/5) hs rfl
  simp only [Clock.scheduleAhead, h, hp, if_false, Bool.false_eq_true]

/-- **C2** (code bug): after `start()` and `stop()`, `stop()` is
idempotent and resets the step index, and the tracked oscillator timers
and scheduled notes are cleared — but the `setTimeout` reschedule
callback armed by `scheduleAhead` (`this.scheduleTimeout`) is NOT
cancelled by `stop()`.  When it later fires (here with the audio clock
at 1 s), it emits no step events (`scheduleStep` returns when not
playing) yet runs the scheduling loop, advancing `currentStep` from 0
to 16: the step index does not remain 0 until the next `start()`. -/
theorem clock_stop_ghost_reschedule :
    ((Clock.init 120).start 0).2.stop.stop = ((Clock.init 120).start 0).2.stop ∧
    ((Clock.init 120).start 0).2.stop.currentStep = 0 ∧
    ((Clock.init 120).start 0).2.stop.isPlaying = false ∧
    ((Clock.init 120).start 0).2.stop.scheduledEvents = [] ∧
    ((Clock.init 120).start 0).2.stop.scheduledNotes = [] ∧
    ((Clock.init 120).start 0).2.stop.scheduleTimeoutPending = true ∧
    (((Clock.init 120).start 0).2.stop.fireScheduleTimeout 1).1 = [] ∧
    (((Clock.init 120).start 0).2.stop.fireScheduleTimeout 1).2.currentStep = 16 := by
  set c₀ : Clock :=
    { Clock.init 120 with isPlaying := true, currentStep := 0, nextStepTime := 0 }
    with hc₀
  have hstart : (Clock.init 120).start 0 = c₀.scheduleAhead 0 := by
    simp [Clock.start, Clock.init, hc₀]
  have hdv : c₀.stepDuration = 1/16 := by
    norm_num [hc₀, Clock.init, Clock.calculateStepDuration, STEPS_PER_QUARTER]
  have hspec := scheduleAhead_spec c₀ 0 rfl (by rw [hdv]; norm_num)
    (by norm_num [hc₀, Clock.init, BEAT_STEPS])
  have hn1 : passCount c₀.nextStepTime (0 + 1/5) c₀.stepDuration = 4 := by
    rw [hdv]
    show passCount 0 (0 + 1/5) (1/16) = 4
    have h4 : ⌈((0 + 1/5 - 0) / (1/16) : ℚ)⌉ = 4 := by
      rw [Int.ceil_eq_iff]
      norm_num
    simp only [passCount, h4]
    rfl
  rw [hn1] at hspec
  set S : Clock := ((Clock.init 120).start 0).2 with hS
  have hSeq : S = { c₀ with currentStep := (0 + 4) % BEAT_STEPS
                            nextStepTime := c₀.nextStepTime + (4 : Nat) * c₀.stepDuration
                            scheduleTimeoutPending := true } := by
    rw [hS, hstart, hspec]
  set T : Clock := S.stop with hT
  have hTeq : T = { c₀ with isPlaying := false
                            currentStep := 0
                            nextStepTime := c₀.nextStepTime + (4 : Nat) * c₀.stepDuration
                            scheduledEvents := []
                            scheduledNotes := []
                            scheduleTimeoutPending := true } := by
    rw [hT, hSeq]
    simp [Clock.stop, Clock.clearScheduledEvents, hc₀, Clock.init]
  have hTnext : T.nextStepTime = 1/4 := by
    rw [hTeq]
    show c₀.nextStepTime + ((4 : Nat) : ℚ) * c₀.stepDuration = 1/4
    rw [hdv]
    show (0 : ℚ) + ((4 : Nat) : ℚ) * (1/16) = 1/4
    norm_num
  have hTd : T.stepDuration = 1/16 := by
    rw [hTeq]
    exact hdv
  have hTpend : T.scheduleTimeoutPending = true := by
    rw [hTeq]
  set T' : Clock := { T with scheduleTimeoutPending := false } with hT'
  have hfire : T.fireScheduleTimeout 1 = T'.scheduleAhead 1 := by
    simp [Clock.fireScheduleTimeout, hTpend, hT']
  have hT'p : T'.isPlaying = false := by
    rw [hT', hTeq]
  have hT'cs : T'.currentStep = 0 := by
    rw [hT', hTeq]
  have hT'd : T'.stepDuration = 1/16 := hTd
  have hT'next : T'.nextStepTime = 1/4 := hTnext
  have hstopspec := scheduleAhead_stopped_spec T' 1 hT'p
    (by rw [hT'd]; norm_num) (by rw [hT'cs]; norm_num [BEAT_STEPS])
  have hn2 : passCount T'.nextStepTime (1 + 1/5) T'.stepDuration = 16 := by
    rw [hT'next, hT'd]
    have h16 : ⌈((1 + 1/5 - 1/4) / (1/16) : ℚ)⌉ = 16 := by
      rw [Int.ceil_eq_iff]
      norm_num
    simp only [passCount, h16]
    rfl
  rw [hn2] at hstopspec
  refine ⟨rfl, rfl, rfl, rfl, rfl, hTpend, ?_, ?_⟩
  · rw [hfire, hstopspec]
  · rw [hfire, hstopspec]
    show (T'.currentStep + 16) % BEAT_STEPS = 16
    rw [hT'cs]
    norm_num [BEAT_STEPS]

/-- A running clock (60 BPM, step duration 1/8 s) whose predicted
last-step time has drifted 0.325 s behind the audio clock at 0.3 s. -/
def driftedClock : Clock :=
  { Clock.init 60 with isPlaying := true, nextStepTime := 1/10 }

/-- **C3** fails on the code: at a concrete running state whose drift
magnitude (0.325 s) far exceeds both the claimed 60 ms and the code's
50 ms threshold, the next scheduling pass does NOT realign
`nextStepTime` to `now + stepDuration` (it keeps extending the stale
progression); moreover the constructor never arms the periodic
recalibration interval (the call is commented out), so drift
correction does not run during playback. -/
theorem clock_drift_correction_counterexample :
    (Clock.init 60).recalibrationArmed = false ∧
    driftedClock.isPlaying = true ∧
    |driftedClock.nextStepTime - driftedClock.stepDuration - 3/10| > 3/50 ∧
    (driftedClock.scheduleAhead (3/10)).2.nextStepTime
      ≠ 3/10 + driftedClock.stepDuration := by
  have hdv : driftedClock.stepDuration = 1/8 := by
    norm_num [driftedClock, Clock.init, Clock.calculateStepDuration,
      STEPS_PER_QUARTER]
  have hnt : driftedClock.nextStepTime = 1/10 := rfl
  have hspec := scheduleAhead_spec driftedClock (3/10) rfl
    (by rw [hdv]; norm_num) (by norm_num [driftedClock, Clock.init, BEAT_STEPS])
  have hn : passCount driftedClock.nextStepTime (3/10 + 1/5)
      driftedClock.stepDuration = 4 := by
    rw [hnt, hdv]
    have h4 : ⌈((3/10 + 1/5 - 1/10) / (1/8) : ℚ)⌉ = 4 := by
      rw [Int.ceil_eq_iff]
      norm_num
    simp only [passCount, h4]
    rfl
  rw [hn] at hspec
  refine ⟨rfl, rfl, ?_, ?_⟩
  · rw [hnt, hdv]
    rw [abs_of_nonpos (by norm_num)]
    norm_num
  · rw [hspec]
    show driftedClock.nextStepTime + ((4 : Nat) : ℚ) * driftedClock.stepDuration
      ≠ 3/10 + driftedClock.stepDuration
    rw [hnt, hdv]
    norm_num

/-- **C3** (amended): `recalibrate()`, when invoked with a drift
magnitude above the code's 50 ms threshold, realigns `nextStepTime` to
`now + stepDuration`; but the periodic recalibration interval is never
armed — the `startRecalibrationInterval()` call in the constructor is
commented out — so drift correction does not run periodically during
playback (`recalibrate` is reachable only from the app's AudioContext
statechange listener). -/
theorem clock_recalibrate_spec (c : Clock) (now : ℚ)
    (h : |c.nextStepTime - c.stepDuration - now| > 1/20) :
    (c.recalibrate now).nextStepTime = now + c.stepDuration ∧
    (∀ bpm : ℚ, (Clock.init bpm).recalibrationArmed = false) := by
  refine ⟨?_, fun _ => rfl⟩
  simp only [Clock.recalibrate, h, if_pos]

/-- Witness for `clock_recalibrate_spec` at the drifted 60 BPM clock. -/
theorem clock_recalibrate_spec_witness :
    |driftedClock.nextStepTime - driftedClock.stepDuration - 3/10| > 1/20 ∧
    (driftedClock.recalibrate (3/10)).nextStepTime
      = 3/10 + driftedClock.stepDuration :=
  ⟨by
    show |(1 : ℚ)/10 - driftedClock.stepDuration - 3/10| > 1/20
    norm_num [driftedClock, Clock.init, Clock.calculateStepDuration,
      STEPS_PER_QUARTER, abs_of_nonpos],
   (clock_recalibrate_spec driftedClock (3/10) (by
    show |(1 : ℚ)/10 - driftedClock.stepDuration - 3/10| > 1/20
    norm_num [driftedClock, Clock.init, Clock.calculateStepDuration,
      STEPS_PER_QUARTER, abs_of_nonpos])).1⟩

/-! ### v3.7 `BeatSequencer` (launchpad37.js lines 3980–4330) -/

/-- The slice of `BeatSequencer` state that `setTempo` touches. -/
structure BeatSequencer where
  bpm : ℚ
  isPlaying : Bool
  stepInterval : ℚ
deriving DecidableEq, Repr

/-- `BeatSequencer.setTempo(bpm)` (launchpad37.js 4237–4249): clamps to
`[40, 300]` and recomputes `stepInterval = 60 / bpm / 4` only while
playing. -/
def BeatSequencer.setTempo (s : BeatSequencer) (bpm : ℚ) : BeatSequencer :=
  let b := max 40 (min 300 bpm)
  { s with bpm := b
           stepInterval := if s.isPlaying then 60 / b / 4 else s.stepInterval }

/-- **C4** fails on v3.7: `BeatSequencer.setTempo(1000)` yields an
effective tempo of 300, not 240 (the clamp is to `[40, 300]`). -/
theorem setTempo_clamp_counterexample :
    ((⟨120, true, 1/8⟩ : BeatSequencer).setTempo 1000).bpm = 300 ∧
    ((⟨120, true, 1/8⟩ : BeatSequencer).setTempo 1000).bpm ≠ 240 := by
  constructor <;> norm_num [BeatSequencer.setTempo]

/-- **C4** (amended): v3.5 `Clock.setBPM` clamps the tempo to
`[40, 240]` (`setBPM(10)` → 40, `setBPM(1000)` → 240) and always
recomputes the step duration from the clamped tempo, while v3.7
`BeatSequencer.setTempo` clamps to `[40, 300]` (`setTempo(10)` → 40,
`setTempo(1000)` → 300) and recomputes the step interval from the
clamped tempo only while playing. -/
theorem setTempo_clamps (c : Clock) (s : BeatSequencer) (x now : ℚ) :
    ((c.setBPM x now).2).bpm = max 40 (min 240 x) ∧
    40 ≤ ((c.setBPM x now).2).bpm ∧ ((c.setBPM x now).2).bpm ≤ 240 ∧
    ((c.setBPM x now).2).stepDuration
      = Clock.calculateStepDuration (max 40 (min 240 x)) ∧
    ((Clock.init 120).setBPM 10 now).2.bpm = 40 ∧
    ((Clock.init 120).setBPM 1000 now).2.bpm = 240 ∧
    (s.setTempo x).bpm = max 40 (min 300 x) ∧
    40 ≤ (s.setTempo x).bpm ∧ (s.setTempo x).bpm ≤ 300 ∧
    (s.setTempo x).stepInterval
      = (if s.isPlaying then 60 / (max 40 (min 300 x)) / 4 else s.stepInterval) ∧
    ((⟨120, true, 1/8⟩ : BeatSequencer).setTempo 10).bpm = 40 ∧
    ((⟨120, true, 1/8⟩ : BeatSequencer).setTempo 1000).bpm = 300 := by
  have hbpm : ∀ (c' : Clock) (y now' : ℚ), ((c'.setBPM y now').2).bpm
      = max 40 (min 240 y) := by
    intro c' y now'
    simp only [Clock.setBPM]
    split <;> rfl
  have hsd : ∀ (c' : Clock) (y now' : ℚ), ((c'.setBPM y now').2).stepDuration
      = Clock.calculateStepDuration (max 40 (min 240 y)) := by
    intro c' y now'
    simp only [Clock.setBPM]
    split <;> rfl
  refine ⟨hbpm c x now, ?_, ?_, hsd c x now, ?_, ?_, rfl, ?_, ?_, rfl, ?_, ?_⟩
  · rw [hbpm]
    exact le_max_left _ _
  · rw [hbpm]
    exact max_le (by norm_num) (min_le_left _ _)
  · rw [hbpm]
    norm_num
  · rw [hbpm]
    norm_num
  · exact le_max_left _ _
  · exact max_le (by norm_num) (min_le_left _ _)
  · norm_num [BeatSequencer.setTempo]
  · norm_num [BeatSequencer.setTempo]

/-! ### Pattern (`class Pattern`, launchpad35.js lines 3269–3604) -/

/-- One JS write `arr[pos] = v` where `pos` may be a negative index
(JS then stores a non-index property, leaving the array contents and
length unchanged, and indexed reads never see it). -/
def jsWriteInt (l : List α) (pos : Int) (v d : α) : List α :=
  if 0 ≤ pos then jsWrite l pos.toNat v d else l

/-- The `this.timing` record of a `Pattern`. -/
structure Timing where
  swing : ℚ
  humanize : ℚ
  stepDuration : ℚ
deriving DecidableEq, Repr

structure Pattern where
  steps : Nat
  name : String
  tracks : List (Nat × List Nat)
  velocities : List (Nat × List ℚ)
  id : String
  isNew : Bool
  manuallyTriggeredNotes : List Nat
  lastStepTriggered : Int
  timing : Timing
deriving DecidableEq, Repr

namespace Pattern

/-- The `Pattern` constructor (`steps = 32`, `name = "Untitled"`);
`freshId` stands for `Date.now().toString()`. -/
def new (steps : Nat := 32) (name : String := "Untitled")
    (freshId : String := "0") : Pattern :=
  { steps := steps
    name := name
    tracks := []
    velocities := []
    id := freshId
    isNew := true
    manuallyTriggeredNotes := []
    lastStepTriggered := -1
    timing := ⟨0, 0, 0⟩ }

/-- `addTrack(note)`: lazily creates the note's zero-filled step array
and full-velocity array (the source also returns the track). -/
def addTrack (p : Pattern) (note : Nat) : Pattern :=
  if mapHas p.tracks note then p
  else
    { p with
      tracks := mapSet p.tracks note (List.replicate p.steps 0)
      velocities := mapSet p.velocities note (List.replicate p.steps (1 : ℚ)) }

/-- `recordNote(note, step, velocity = 1.0)`: initialises the track if
absent, sets `tracks.get(note)[step] = 1` and stores the velocity
clamped to `[0.1, 1.0]` — the step index is written as-is, without any
bounds check. -/
def recordNote (p : Pattern) (note step : Nat) (velocity : ℚ := 1) : Pattern :=
  let p1 :=
    if mapHas p.tracks note then p
    else
      { p with
        tracks := mapSet p.tracks note (List.replicate p.steps 0)
        velocities := mapSet p.velocities note (List.replicate p.steps (1 : ℚ)) }
  let tr := (mapGet p1.tracks note).getD []
  let clampedVelocity := max (1/10) (min 1 velocity)
  let vel := (mapGet p1.velocities note).getD []
  { p1 with
    tracks := mapSet p1.tracks note (jsWrite tr step 1 0)
    velocities := mapSet p1.velocities note (jsWrite vel step clampedVelocity 1) }

/-- `clearTriggeredNotesIfNeeded(currentStep)`. -/
def clearTriggeredNotesIfNeeded (p : Pattern) (currentStep : Nat) : Pattern :=
  if p.lastStepTriggered ≠ (currentStep : Int) then
    { p with manuallyTriggeredNotes := []
             lastStepTriggered := (currentStep : Int) }
  else p

/-- `getStep(note, step)`: `this.tracks.get(note)?.[step] ?? 0`. -/
def getStep (p : Pattern) (note step : Nat) : Nat :=
  ((mapGet p.tracks note).bind (fun arr => arr[step]?)).getD 0

/-- `getVelocity(note, step)`: `this.velocities.get(note)?.[step] ?? 1.0`. -/
def getVelocity (p : Pattern) (note step : Nat) : ℚ :=
  ((mapGet p.velocities note).bind (fun arr => arr[step]?)).getD 1

/-- `getNoteParams(note, step)`: `{active: getStep > 0, velocity: getVelocity}`. -/
def getNoteParams (p : Pattern) (note step : Nat) : Bool × ℚ :=
  (decide (0 < p.getStep note step), p.getVelocity note step)

/-- `clear()`: fills every track with 0 and every velocity array with 1. -/
def clear (p : Pattern) : Pattern :=
  { p with
    tracks := p.tracks.map (fun e => (e.1, List.replicate e.2.length 0))
    velocities := p.velocities.map (fun e => (e.1, List.replicate e.2.length (1 : ℚ))) }

/-- `clearTrack(note)`. -/
def clearTrack (p : Pattern) (note : Nat) : Pattern :=
  if mapHas p.tracks note then
    { p with
      tracks := p.tracks.map (fun e =>
        if e.1 = note then (e.1, List.replicate e.2.length 0) else e)
      velocities := p.velocities.map (fun e =>
        if e.1 = note then (e.1, List.replicate e.2.length (1 : ℚ)) else e) }
  else p

/-- The per-note loop body of `shift(amount)`: writes `src[i]` into
position `(i + amount + steps) % steps` (JS `%` truncates, so the
position is negative for very negative `amount`) of a fresh
`pad`-filled array of length `steps`. -/
def shiftArr (src : List α) (steps : Nat) (amount : Int) (pad : α) : List α :=
  (List.range steps).foldl
    (fun acc (i : Nat) =>
      jsWriteInt acc (Int.tmod ((i : Int) + amount + (steps : Int)) (steps : Int))
        ((src[i]?).getD pad) pad)
    (List.replicate steps pad)

/-- `shift(amount)`: iterates over the notes of `tracks`, replacing
each note's step and velocity arrays by their rotation (a velocity
entry whose note has no track is untouched; the source would throw
there before touching anything). -/
def shift (p : Pattern) (amount : Int) : Pattern :=
  { p with
    tracks := p.tracks.map (fun e => (e.1, shiftArr e.2 p.steps amount 0))
    velocities := p.velocities.map (fun e =>
      if mapHas p.tracks e.1 then (e.1, shiftArr e.2 p.steps amount (1 : ℚ)) else e) }

/-- The per-note loop body of `double()`: copies `src[i]` to positions
`i` and `i + steps` of a fresh `pad`-filled array of length `2·steps`. -/
def doubleArr (src : List α) (steps : Nat) (pad : α) : List α :=
  (List.range steps).foldl
    (fun acc i =>
      let v := (src[i]?).getD pad
      jsWrite (jsWrite acc i v pad) (i + steps) v pad)
    (List.replicate (2 * steps) pad)

/-- `double()`: no-op when `steps >= 64`, otherwise duplicates every
note's content into doubled-length arrays and doubles `steps`. -/
def double (p : Pattern) : Pattern :=
  if 64 ≤ p.steps then p
  else
    { p with
      steps := 2 * p.steps
      tracks := p.tracks.map (fun e => (e.1, doubleArr e.2 p.steps 0))
      velocities := p.velocities.map (fun e =>
        if mapHas p.tracks e.1 then (e.1, doubleArr e.2 p.steps (1 : ℚ)) else e) }

/-- The per-note loop body of `halve()`: keeps the first `newSteps`
entries of `src`. -/
def halveArr (src : List α) (newSteps : Nat) (pad : α) : List α :=
  (List.range newSteps).foldl
    (fun acc i => jsWrite acc i ((src[i]?).getD pad) pad)
    (List.replicate newSteps pad)

/-- `halve()`: no-op when `steps <= 4`, otherwise keeps only the first
half of every note's arrays and halves `steps`. -/
def halve (p : Pattern) : Pattern :=
  if p.steps ≤ 4 then p
  else
    let newSteps := p.steps / 2
    { p with
      steps := newSteps
      tracks := p.tracks.map (fun e => (e.1, halveArr e.2 newSteps 0))
      velocities := p.velocities.map (fun e =>
        if mapHas p.tracks e.1 then (e.1, halveArr e.2 newSteps (1 : ℚ)) else e) }

end Pattern

/-- The plain record produced by `Pattern.toJSON` (velocities and
timing are optional on load, for backward compatibility). -/
structure PatternJSON where
  id : String
  name : String
  steps : Nat
  tracks : List (Nat × List Nat)
  velocities : Option (List (Nat × List ℚ))
  timing : Option Timing
  isNew : Bool
deriving DecidableEq, Repr

namespace Pattern

/-- `toJSON()`. -/
def toJSON (p : Pattern) : PatternJSON :=
  { id := p.id
    name := p.name
    steps := p.steps
    tracks := p.tracks
    velocities := some p.velocities
    timing := some p.timing
    isNew := p.isNew }

/-- `fromJSON(data)` mutating `p`; `freshId` models the
`Date.now().toString()` fallback used when `data.id` is falsy (the
empty string), and `"Untitled Pattern"` is the fallback for a falsy
name.  Absent velocity data defaults every note of `tracks` to a
full-velocity array; absent timing keeps the current timing. -/
def fromJSON (p : Pattern) (data : PatternJSON) (freshId : String) : Pattern :=
  { p with
    id := if data.id = "" then freshId else data.id
    name := if data.name = "" then "Untitled Pattern" else data.name
    steps := data.steps
    tracks := data.tracks
    isNew := data.isNew
    velocities :=
      match data.velocities with
      | some v => v
      | none => data.tracks.map (fun e => (e.1, List.replicate data.steps (1 : ℚ)))
    timing :=
      match data.timing with
      | some t => t
      | none => p.timing }

end Pattern

theorem mapGet_map_const (m : List (Nat × α)) (c : β) (k : Nat) :
    mapGet (m.map (fun e => (e.1, c))) k
      = if mapHas m k then some c else none := by
  induction m with
  | nil => simp [mapGet, mapHas]
  | cons p m ih =>
    by_cases hp : p.1 = k
    · simp [mapGet, mapHas, hp]
    · simp only [List.map_cons, mapGet, hp, if_false, ih]
      congr 1
      simp [mapHas, mapGet, hp]

theorem recordNote_getStep_self (p : Pattern) (note step : Nat) (v : ℚ) :
    (p.recordNote note step v).getStep note step = 1 := by
  unfold Pattern.recordNote Pattern.getStep
  simp [mapGet_mapSet_self, getElem?_jsWrite_self]

theorem recordNote_getVelocity_self (p : Pattern) (note step : Nat) (v : ℚ) :
    (p.recordNote note step v).getVelocity note step = max (1/10) (min 1 v) := by
  unfold Pattern.recordNote Pattern.getVelocity
  simp [mapGet_mapSet_self, getElem?_jsWrite_self]

theorem fromJSON_toJSON (q fresh : Pattern) (fid : String)
    (hid : q.id ≠ "") (hname : q.name ≠ "") :
    (fresh.fromJSON q.toJSON fid).id = q.id ∧
    (fresh.fromJSON q.toJSON fid).name = q.name ∧
    (fresh.fromJSON q.toJSON fid).steps = q.steps ∧
    (fresh.fromJSON q.toJSON fid).tracks = q.tracks ∧
    (fresh.fromJSON q.toJSON fid).velocities = q.velocities ∧
    (fresh.fromJSON q.toJSON fid).timing = q.timing ∧
    (fresh.fromJSON q.toJSON fid).isNew = q.isNew := by
  unfold Pattern.fromJSON Pattern.toJSON
  refine ⟨?_, ?_, rfl, rfl, rfl, rfl, rfl⟩ <;> simp [hid, hname]

theorem fromJSON_default_velocities (fresh : Pattern) (data : PatternJSON)
    (fid : String) (hvel : data.velocities = none) (note step : Nat) :
    (fresh.fromJSON data fid).getVelocity note step = 1 := by
  unfold Pattern.fromJSON Pattern.getVelocity
  rw [hvel]
  show ((mapGet (data.tracks.map
      (fun e => (e.1, List.replicate data.steps (1 : ℚ)))) note).bind
      (fun arr => arr[step]?)).getD 1 = 1
  rw [mapGet_map_const]
  split
  · rw [Option.some_bind, List.getElem?_replicate]
    split <;> simp
  · simp

/-- **C7**: `recordNote(60, 5, 0.8)` followed by reading step 5 of note
60 returns active = true and velocity 0.8; serialising the pattern with
`toJSON` and deserialising into a fresh pattern with `fromJSON`
preserves the full state (id, name, step count, tracks, velocities,
timing modifiers and the isNew flag; id and name are nonempty strings
whenever produced by the constructors, and the JS `||` fallbacks only
fire on the empty string), so the same read yields identical results;
and when the serialised data lacks velocity arrays, deserialisation
defaults every step's velocity to full scale 1.0. -/
theorem pattern_record_serialize_roundtrip (p fresh : Pattern) (fid : String)
    (hid : p.id ≠ "") (hname : p.name ≠ "") :
    (p.recordNote 60 5 (4/5)).getNoteParams 60 5 = (true, 4/5) ∧
    (fresh.fromJSON (p.recordNote 60 5 (4/5)).toJSON fid).id
      = (p.recordNote 60 5 (4/5)).id ∧
    (fresh.fromJSON (p.recordNote 60 5 (4/5)).toJSON fid).name
      = (p.recordNote 60 5 (4/5)).name ∧
    (fresh.fromJSON (p.recordNote 60 5 (4/5)).toJSON fid).steps
      = (p.recordNote 60 5 (4/5)).steps ∧
    (fresh.fromJSON (p.recordNote 60 5 (4/5)).toJSON fid).tracks
      = (p.recordNote 60 5 (4/5)).tracks ∧
    (fresh.fromJSON (p.recordNote 60 5 (4/5)).toJSON fid).velocities
      = (p.recordNote 60 5 (4/5)).velocities ∧
    (fresh.fromJSON (p.recordNote 60 5 (4/5)).toJSON fid).timing
      = (p.recordNote 60 5 (4/5)).timing ∧
    (fresh.fromJSON (p.recordNote 60 5 (4/5)).toJSON fid).isNew
      = (p.recordNote 60 5 (4/5)).isNew ∧
    (fresh.fromJSON (p.recordNote 60 5 (4/5)).toJSON fid).getNoteParams 60 5
      = (true, 4/5) ∧
    (∀ (data : PatternJSON) (note step : Nat), data.velocities = none →
      (fresh.fromJSON data fid).getVelocity note step = 1) := by
  have hqid0 : (p.recordNote 60 5 (4/5)).id = p.id := by
    unfold Pattern.recordNote
    split <;> rfl
  have hqname0 : (p.recordNote 60 5 (4/5)).name = p.name := by
    unfold Pattern.recordNote
    split <;> rfl
  have hqid : (p.recordNote 60 5 (4/5)).id ≠ "" := hqid0 ▸ hid
  have hqname : (p.recordNote 60 5 (4/5)).name ≠ "" := hqname0 ▸ hname
  obtain ⟨h1, h2, h3, h4, h5, h6, h7⟩ :=
    fromJSON_toJSON (p.recordNote 60 5 (4/5)) fresh fid hqid hqname
  have hparams : (p.recordNote 60 5 (4/5)).getNoteParams 60 5 = (true, 4/5) := by
    unfold Pattern.getNoteParams
    rw [recordNote_getStep_self, recordNote_getVelocity_self]
    norm_num
  refine ⟨hparams, h1, h2, h3, h4, h5, h6, h7, ?_,
    fun data note step hv => fromJSON_default_velocities fresh data fid hv note step⟩
  unfold Pattern.getNoteParams Pattern.getStep Pattern.getVelocity at hparams ⊢
  rw [h4, h5]
  exact hparams

/-- Witness for `pattern_record_serialize_roundtrip` on two freshly
constructed patterns. -/
theorem pattern_record_serialize_roundtrip_witness :
    ((Pattern.new 32 "Untitled" "1").id ≠ "" ∧
      (Pattern.new 32 "Untitled" "1").name ≠ "") ∧
    ((Pattern.new 32 "Untitled" "1").recordNote 60 5 (4/5)).getNoteParams 60 5
      = (true, 4/5) :=
  ⟨⟨by decide, by decide⟩,
   (pattern_record_serialize_roundtrip (Pattern.new 32 "Untitled" "1")
      (Pattern.new 32 "Untitled" "2") "9" (by decide) (by decide)).1⟩

/-- A 32-step pattern with note 36 active exactly at steps 0, 8, 16, 24
(recorded at full velocity). -/
def beatPattern36 : Pattern :=
  ((((Pattern.new 32 "Pattern" "1").recordNote 36 0 1).recordNote 36 8 1).recordNote
      36 16 1).recordNote 36 24 1

theorem mapGet_mem (m : List (Nat × α)) (k : Nat) (v : α)
    (h : mapGet m k = some v) : (k, v) ∈ m := by
  induction m with
  | nil => simp [mapGet] at h
  | cons p m ih =>
    by_cases hp : p.1 = k
    · simp only [mapGet, hp, if_true] at h
      cases h
      have hep : ((k, p.2) : Nat × α) = p := by
        rw [← hp]
      rw [hep]
      exact List.mem_cons_self _ _
    · simp only [mapGet, hp, if_false] at h
      exact List.mem_cons_of_mem _ (ih h)

theorem mem_mapSet (m : List (Nat × α)) (k : Nat) (v : α) :
    ∀ e ∈ mapSet m k v, e.2 = v ∨ e ∈ m := by
  intro e he
  unfold mapSet at he
  split at he
  · obtain ⟨a, ha, rfl⟩ := List.mem_map.mp he
    by_cases hk : a.1 = k
    · simp [hk]
    · simp only [hk, if_false]
      exact Or.inr ha
  · rcases List.mem_append.mp he with h | h
    · exact Or.inr h
    · left
      simp only [List.mem_singleton] at h
      rw [h]

/-- All velocity values stored in a velocities map are 1. -/
def AllOnes (m : List (Nat × List ℚ)) : Prop :=
  ∀ e ∈ m, ∀ x ∈ e.2, x = 1

theorem allOnes_jsWrite (l : List ℚ) (i : Nat) (hall : ∀ x ∈ l, x = 1) :
    ∀ x ∈ jsWrite l i 1 1, x = 1 := by
  intro x hx
  unfold jsWrite at hx
  split at hx
  · rcases List.mem_or_eq_of_mem_set hx with h | h
    · exact hall x h
    · exact h
  · rcases List.mem_append.mp hx with h | h
    · rcases List.mem_append.mp h with h1 | h1
      · exact hall x h1
      · exact List.eq_of_mem_replicate h1
    · simpa using h

theorem allOnes_mapSet (m : List (Nat × List ℚ)) (k : Nat) (v : List ℚ)
    (hm : AllOnes m) (hv : ∀ x ∈ v, x = 1) : AllOnes (mapSet m k v) := by
  intro e he
  rcases mem_mapSet _ _ _ e he with h2 | h2
  · rw [h2]
    exact hv
  · exact hm e h2

theorem allOnes_getD (m : List (Nat × List ℚ)) (k : Nat) (hm : AllOnes m) :
    ∀ x ∈ (mapGet m k).getD [], x = 1 := by
  rcases hmg : mapGet m k with _ | arr
  · simp
  · exact hm _ (mapGet_mem _ _ _ hmg)

theorem allOnes_recordNote (p : Pattern) (note step : Nat)
    (h : AllOnes p.velocities) :
    AllOnes (p.recordNote note step 1).velocities := by
  have hclamp : max ((1 : ℚ)/10) (min 1 1) = 1 := by norm_num
  unfold Pattern.recordNote
  simp only [hclamp]
  split <;> rename_i hhas
  · exact allOnes_mapSet _ _ _ h (allOnes_jsWrite _ _ (allOnes_getD _ _ h))
  · have h1 : AllOnes (mapSet p.velocities note (List.replicate p.steps 1)) :=
      allOnes_mapSet _ _ _ h (fun x hx => List.eq_of_mem_replicate hx)
    exact allOnes_mapSet _ _ _ h1 (allOnes_jsWrite _ _ (allOnes_getD _ _ h1))

theorem allOnes_foldl_double (src : List ℚ) (steps : Nat)
    (hsrc : ∀ i : Nat, ((src[i]?).getD 1 : ℚ) = 1) :
    ∀ (l : List Nat) (acc : List ℚ), (∀ x ∈ acc, x = 1) →
      ∀ x ∈ l.foldl (fun acc i =>
          jsWrite (jsWrite acc i ((src[i]?).getD 1) 1) (i + steps)
            ((src[i]?).getD 1) 1) acc, x = 1 := by
  intro l
  induction l with
  | nil =>
    intro acc hacc
    simpa using hacc
  | cons i l ih =>
    intro acc hacc
    rw [List.foldl_cons]
    have hacc' : ∀ x ∈ jsWrite (jsWrite acc i ((src[i]?).getD 1) 1) (i + steps)
        ((src[i]?).getD 1) 1, x = 1 := by
      rw [hsrc i]
      exact allOnes_jsWrite _ _ (allOnes_jsWrite _ _ hacc)
    exact ih _ hacc'

theorem allOnes_doubleArr (src : List ℚ) (steps : Nat)
    (hall : ∀ x ∈ src, x = 1) : ∀ x ∈ Pattern.doubleArr src steps 1, x = 1 := by
  have hsrc : ∀ i : Nat, ((src[i]?).getD 1 : ℚ) = 1 := by
    intro i
    rcases hg : src[i]? with _ | x
    · simp
    · simpa using hall x (List.getElem?_mem hg)
  unfold Pattern.doubleArr
  exact allOnes_foldl_double src steps hsrc _ _
    (fun x hx => List.eq_of_mem_replicate hx)

theorem allOnes_double (p : Pattern) (h : AllOnes p.velocities) :
    AllOnes p.double.velocities := by
  unfold Pattern.double
  split
  · exact h
  · intro e he
    obtain ⟨a, ha, rfl⟩ := List.mem_map.mp he
    split
    · exact allOnes_doubleArr a.2 p.steps (h a ha)
    · exact h a ha

theorem getVelocity_of_allOnes (p : Pattern) (note step : Nat)
    (h : AllOnes p.velocities) : p.getVelocity note step = 1 := by
  unfold Pattern.getVelocity
  rcases hmg : mapGet p.velocities note with _ | arr
  · simp
  · rcases hg : arr[step]? with _ | x
    · simp [hg]
    · have hx := h _ (mapGet_mem _ _ _ hmg) x (List.getElem?_mem hg)
      simp [hg, hx]

theorem allOnes_beatPattern36 : AllOnes beatPattern36.velocities := by
  unfold beatPattern36
  apply allOnes_recordNote
  apply allOnes_recordNote
  apply allOnes_recordNote
  apply allOnes_recordNote
  intro e he
  simp [Pattern.new] at he

set_option maxRecDepth 100000 in
/-- **C8**: starting from a 32-step pattern with note 36 active at
steps {0,8,16,24}, `double()` yields a 64-step pattern with note 36
active exactly at {0,8,16,24,32,40,48,56} (the multiples of 8), with
velocities copied (all at full scale here), and `halve()` on the
original yields a 16-step pattern with note 36 active exactly at
{0,8}; `double()` is a no-op at or above the maximum length 64 and
`halve()` is a no-op at or below the minimum length 4. -/
theorem pattern_double_halve (pd ph : Pattern) :
    (64 ≤ pd.steps → pd.double = pd) ∧
    (ph.steps ≤ 4 → ph.halve = ph) ∧
    beatPattern36.steps = 32 ∧
    (∀ s, s < 32 → beatPattern36.getStep 36 s = if s % 8 = 0 then 1 else 0) ∧
    beatPattern36.double.steps = 64 ∧
    (∀ s, s < 64 → beatPattern36.double.getStep 36 s
      = if s % 8 = 0 then 1 else 0) ∧
    (∀ s, s < 64 → beatPattern36.double.getVelocity 36 s = 1) ∧
    beatPattern36.halve.steps = 16 ∧
    (∀ s, s < 16 → beatPattern36.halve.getStep 36 s
      = if s % 8 = 0 then 1 else 0) := by
  refine ⟨?_, ?_, by decide, by decide, by decide, by decide,
    fun s _ => getVelocity_of_allOnes _ 36 s
      (allOnes_double _ allOnes_beatPattern36),
    by decide, by decide⟩
  · intro h
    unfold Pattern.double
    rw [if_pos h]
  · intro h
    unfold Pattern.halve
    rw [if_pos h]

set_option maxRecDepth 100000 in
/-- Witness for `pattern_double_halve`: the no-op bounds discharged at
a 64-step and a 4-step pattern. -/
theorem pattern_double_halve_witness :
    (64 ≤ (Pattern.new 64 "w" "1").steps ∧ (Pattern.new 4 "w" "2").steps ≤ 4) ∧
    (Pattern.new 64 "w" "1").double = Pattern.new 64 "w" "1" ∧
    (Pattern.new 4 "w" "2").halve = Pattern.new 4 "w" "2" :=
  ⟨⟨by decide, by decide⟩,
   (pattern_double_halve (Pattern.new 64 "w" "1") (Pattern.new 4 "w" "2")).1
     (by decide),
   (pattern_double_halve (Pattern.new 64 "w" "1") (Pattern.new 4 "w" "2")).2.1
     (by decide)⟩

/-! ### The track/velocity length invariant (C9) -/

theorem mapHas_mapSet (m : List (Nat × α)) (k k' : Nat) (v : α) :
    mapHas (mapSet m k v) k' = if k' = k then true else mapHas m k' := by
  by_cases h : k' = k
  · subst h
    simp [mapHas, mapGet_mapSet_self]
  · simp [h, mapHas, mapGet_mapSet_ne m k k' v h]

theorem mapHas_map_of_fst (m : List (Nat × α)) (f : Nat × α → Nat × β)
    (hf : ∀ e, (f e).1 = e.1) (k : Nat) :
    mapHas (m.map f) k = mapHas m k := by
  induction m with
  | nil => rfl
  | cons p m ih =>
    simp only [List.map_cons, mapHas, mapGet, hf p]
    by_cases hp : p.1 = k
    · simp [hp]
    · simp only [hp, if_false]
      exact ih

theorem mapHas_map_snd (m : List (Nat × α)) (g : Nat × α → β) (k : Nat) :
    mapHas (m.map (fun e => (e.1, g e))) k = mapHas m k :=
  mapHas_map_of_fst m (fun e => (e.1, g e)) (fun _ => rfl) k

theorem mapHas_map_condPair (m : List (Nat × α)) (c : Nat × α → Bool)
    (g : Nat × α → α) (k : Nat) :
    mapHas (m.map (fun e => if c e = true then (e.1, g e) else e)) k
      = mapHas m k :=
  mapHas_map_of_fst m _ (fun e => by split <;> rfl) k

theorem mapHas_map_iteKey (m : List (Nat × α)) (note : Nat)
    (g : Nat × α → α) (k : Nat) :
    mapHas (m.map (fun e => if e.1 = note then (e.1, g e) else e)) k
      = mapHas m k :=
  mapHas_map_of_fst m _ (fun e => by split <;> rfl) k

theorem mapHas_of_mem (m : List (Nat × α)) (e : Nat × α) (he : e ∈ m) :
    mapHas m e.1 = true := by
  induction m with
  | nil => simp at he
  | cons p m ih =>
    rcases List.mem_cons.mp he with h | h
    · subst h
      simp [mapHas, mapGet]
    · by_cases hp : p.1 = e.1
      · simp [mapHas, mapGet, hp]
      · simpa [mapHas, mapGet, hp] using ih h

theorem foldl_length_fixed {α : Type _} (n : Nat) :
    ∀ (l : List Nat) (f : List α → Nat → List α) (acc : List α),
      (∀ (acc' : List α) i, i ∈ l → acc'.length = n → (f acc' i).length = n) →
      acc.length = n → (l.foldl f acc).length = n := by
  intro l
  induction l with
  | nil =>
    intro f acc _ hacc
    simpa using hacc
  | cons i l ih =>
    intro f acc hf hacc
    rw [List.foldl_cons]
    exact ih f (f acc i) (fun a j hj ha => hf a j (List.mem_cons_of_mem _ hj) ha)
      (hf acc i (List.mem_cons_self _ _) hacc)

theorem length_shiftArr (src : List α) (steps : Nat) (amount : Int) (pad : α) :
    (Pattern.shiftArr src steps amount pad).length = steps := by
  unfold Pattern.shiftArr
  refine foldl_length_fixed steps _ _ _ ?_ (by simp)
  intro acc i hi hacc
  unfold jsWriteInt
  split <;> rename_i hpos
  · rw [length_jsWrite]
    have hsteps : 0 < steps := by
      rcases List.mem_range.mp hi with h
      omega
    have hlt : Int.tmod ((i : Int) + amount + (steps : Int)) (steps : Int)
        < (steps : Int) := by
      exact Int.tmod_lt_of_pos _ (by exact_mod_cast hsteps)
    have : (Int.tmod ((i : Int) + amount + (steps : Int)) (steps : Int)).toNat
        < steps := by
      omega
    rw [hacc, if_pos this]
  · exact hacc

theorem length_doubleArr (src : List α) (steps : Nat) (pad : α) :
    (Pattern.doubleArr src steps pad).length = 2 * steps := by
  unfold Pattern.doubleArr
  refine foldl_length_fixed (2 * steps) _ _ _ ?_ (by simp)
  intro acc i hi hacc
  have hi' : i < steps := List.mem_range.mp hi
  show (jsWrite (jsWrite acc i _ pad) (i + steps) _ pad).length = 2 * steps
  rw [length_jsWrite, length_jsWrite, hacc,
    if_pos (show i < 2 * steps by omega),
    if_pos (show i + steps < 2 * steps by omega)]

theorem length_halveArr (src : List α) (newSteps : Nat) (pad : α) :
    (Pattern.halveArr src newSteps pad).length = newSteps := by
  unfold Pattern.halveArr
  refine foldl_length_fixed newSteps _ _ _ ?_ (by simp)
  intro acc i hi hacc
  have hi' : i < newSteps := List.mem_range.mp hi
  rw [length_jsWrite, hacc, if_pos hi']

/-- The Pattern invariant: every note in the step map has arrays of the
pattern's current step count in both maps, and the two maps hold the
same notes. -/
def Pattern.inv (p : Pattern) : Prop :=
  (∀ e ∈ p.tracks, e.2.length = p.steps) ∧
  (∀ e ∈ p.velocities, e.2.length = p.steps) ∧
  (∀ note, mapHas p.tracks note = mapHas p.velocities note)

/-- Well-formedness of a serialised pattern record. -/
def PatternJSON.wf (data : PatternJSON) : Prop :=
  (∀ e ∈ data.tracks, e.2.length = data.steps) ∧
  ∀ v, data.velocities = some v →
    (∀ e ∈ v, e.2.length = data.steps) ∧
    (∀ note, mapHas data.tracks note = mapHas v note)

theorem inv_addTrack (p : Pattern) (note : Nat) (hp : p.inv) :
    (p.addTrack note).inv := by
  obtain ⟨ht, hv, hk⟩ := hp
  unfold Pattern.addTrack
  split
  · exact ⟨ht, hv, hk⟩
  · refine ⟨?_, ?_, ?_⟩
    · intro e he
      rcases mem_mapSet _ _ _ e he with h | h
      · rw [h]
        simp
      · exact ht e h
    · intro e he
      rcases mem_mapSet _ _ _ e he with h | h
      · rw [h]
        simp
      · exact hv e h
    · intro n
      show mapHas (mapSet p.tracks note _) n = mapHas (mapSet p.velocities note _) n
      rw [mapHas_mapSet, mapHas_mapSet]
      split
      · rfl
      · exact hk n

theorem getD_length_of_has (m : List (Nat × List α)) (k : Nat) (n : Nat)
    (hlen : ∀ e ∈ m, e.2.length = n) (hhas : mapHas m k = true) :
    ((mapGet m k).getD []).length = n := by
  rcases hmg : mapGet m k with _ | arr
  · simp [mapHas, hmg] at hhas
  · simpa using hlen _ (mapGet_mem _ _ _ hmg)

theorem inv_recordNote (p : Pattern) (note step : Nat) (v : ℚ) (hp : p.inv)
    (hstep : step < p.steps) : (p.recordNote note step v).inv := by
  obtain ⟨ht, hv, hk⟩ := hp
  unfold Pattern.recordNote
  split <;> rename_i hhas
  · have htr := getD_length_of_has p.tracks note p.steps ht hhas
    have hvel := getD_length_of_has p.velocities note p.steps hv
      ((hk note) ▸ hhas)
    refine ⟨?_, ?_, ?_⟩
    · intro e he
      rcases mem_mapSet _ _ _ e he with h | h
      · rw [h, length_jsWrite, htr, if_pos hstep]
      · exact ht e h
    · intro e he
      rcases mem_mapSet _ _ _ e he with h | h
      · rw [h, length_jsWrite, hvel, if_pos hstep]
      · exact hv e h
    · intro n
      show mapHas (mapSet p.tracks note _) n = mapHas (mapSet p.velocities note _) n
      rw [mapHas_mapSet, mapHas_mapSet]
      split
      · rfl
      · exact hk n
  · have hhas1 : mapHas (mapSet p.tracks note (List.replicate p.steps 0)) note
        = true := by
      rw [mapHas_mapSet, if_pos rfl]
    have hhas2 : mapHas (mapSet p.velocities note (List.replicate p.steps (1:ℚ)))
        note = true := by
      rw [mapHas_mapSet, if_pos rfl]
    have htr : ((mapGet (mapSet p.tracks note (List.replicate p.steps 0))
        note).getD []).length = p.steps := by
      rw [mapGet_mapSet_self]
      simp
    have hvel : ((mapGet (mapSet p.velocities note
        (List.replicate p.steps (1:ℚ))) note).getD []).length = p.steps := by
      rw [mapGet_mapSet_self]
      simp
    refine ⟨?_, ?_, ?_⟩
    · intro e he
      rcases mem_mapSet _ _ _ e he with h | h
      · rw [h, length_jsWrite, htr, if_pos hstep]
      · rcases mem_mapSet _ _ _ e h with h2 | h2
        · rw [h2]
          simp
        · exact ht e h2
    · intro e he
      rcases mem_mapSet _ _ _ e he with h | h
      · rw [h, length_jsWrite, hvel, if_pos hstep]
      · rcases mem_mapSet _ _ _ e h with h2 | h2
        · rw [h2]
          simp
        · exact hv e h2
    · intro n
      show mapHas (mapSet (mapSet p.tracks note _) note _) n
        = mapHas (mapSet (mapSet p.velocities note _) note _) n
      rw [mapHas_mapSet, mapHas_mapSet, mapHas_mapSet, mapHas_mapSet]
      split
      · rfl
      · exact hk n

theorem recordNote_out_of_bounds (p : Pattern) (note step : Nat) (v : ℚ)
    (hp : p.inv) (hstep : p.steps ≤ step) :
    ∃ tr vel, mapGet (p.recordNote note step v).tracks note = some tr ∧
      mapGet (p.recordNote note step v).velocities note = some vel ∧
      tr.length = step + 1 ∧ vel.length = step + 1 ∧
      (p.recordNote note step v).steps = p.steps := by
  obtain ⟨ht, hv, hk⟩ := hp
  unfold Pattern.recordNote
  split <;> rename_i hhas
  · have htr := getD_length_of_has p.tracks note p.steps ht hhas
    have hvel := getD_length_of_has p.velocities note p.steps hv
      ((hk note) ▸ hhas)
    refine ⟨_, _, mapGet_mapSet_self _ _ _, mapGet_mapSet_self _ _ _, ?_, ?_, rfl⟩
    · rw [length_jsWrite, htr, if_neg (by omega)]
    · rw [length_jsWrite, hvel, if_neg (by omega)]
  · have htr : ((mapGet (mapSet p.tracks note (List.replicate p.steps 0))
        note).getD []).length = p.steps := by
      rw [mapGet_mapSet_self]
      simp
    have hvel : ((mapGet (mapSet p.velocities note
        (List.replicate p.steps (1:ℚ))) note).getD []).length = p.steps := by
      rw [mapGet_mapSet_self]
      simp
    refine ⟨_, _, mapGet_mapSet_self _ _ _, mapGet_mapSet_self _ _ _, ?_, ?_, rfl⟩
    · rw [length_jsWrite, htr, if_neg (by omega)]
    · rw [length_jsWrite, hvel, if_neg (by omega)]

theorem inv_clear (p : Pattern) (hp : p.inv) : p.clear.inv := by
  obtain ⟨ht, hv, hk⟩ := hp
  unfold Pattern.clear
  refine ⟨?_, ?_, ?_⟩
  · intro e he
    obtain ⟨a, ha, rfl⟩ := List.mem_map.mp he
    simpa using ht a ha
  · intro e he
    obtain ⟨a, ha, rfl⟩ := List.mem_map.mp he
    simpa using hv a ha
  · intro n
    show mapHas (p.tracks.map _) n = mapHas (p.velocities.map _) n
    exact (mapHas_map_snd _ _ n).trans
      ((hk n).trans (mapHas_map_snd _ _ n).symm)

theorem inv_clearTrack (p : Pattern) (note : Nat) (hp : p.inv) :
    (p.clearTrack note).inv := by
  obtain ⟨ht, hv, hk⟩ := hp
  unfold Pattern.clearTrack
  split
  · refine ⟨?_, ?_, ?_⟩
    · intro e he
      obtain ⟨a, ha, rfl⟩ := List.mem_map.mp he
      split
      · simpa using ht a ha
      · exact ht a ha
    · intro e he
      obtain ⟨a, ha, rfl⟩ := List.mem_map.mp he
      split
      · simpa using hv a ha
      · exact hv a ha
    · intro n
      show mapHas (p.tracks.map _) n = mapHas (p.velocities.map _) n
      exact (mapHas_map_iteKey _ note _ n).trans
        ((hk n).trans (mapHas_map_iteKey _ note _ n).symm)
  · exact ⟨ht, hv, hk⟩

theorem inv_shift (p : Pattern) (a : Int) (hp : p.inv) : (p.shift a).inv := by
  obtain ⟨ht, hv, hk⟩ := hp
  unfold Pattern.shift
  refine ⟨?_, ?_, ?_⟩
  · intro e he
    obtain ⟨b, hb, rfl⟩ := List.mem_map.mp he
    simpa using length_shiftArr b.2 p.steps a 0
  · intro e he
    obtain ⟨b, hb, rfl⟩ := List.mem_map.mp he
    split
    · simpa using length_shiftArr b.2 p.steps a 1
    · exact hv b hb
  · intro n
    show mapHas (p.tracks.map _) n = mapHas (p.velocities.map _) n
    exact (mapHas_map_snd _ _ n).trans
      ((hk n).trans (mapHas_map_condPair _ _ _ n).symm)

theorem inv_double (p : Pattern) (hp : p.inv) : p.double.inv := by
  obtain ⟨ht, hv, hk⟩ := hp
  unfold Pattern.double
  split
  · exact ⟨ht, hv, hk⟩
  · refine ⟨?_, ?_, ?_⟩
    · intro e he
      obtain ⟨b, hb, rfl⟩ := List.mem_map.mp he
      simpa using length_doubleArr b.2 p.steps 0
    · intro e he
      obtain ⟨b, hb, rfl⟩ := List.mem_map.mp he
      split <;> rename_i hbb
      · simpa using length_doubleArr b.2 p.steps 1
      · exfalso
        have hmem := mapHas_of_mem _ _ hb
        rw [← hk b.1] at hmem
        exact hbb hmem
    · intro n
      show mapHas (p.tracks.map _) n = mapHas (p.velocities.map _) n
      exact (mapHas_map_snd _ _ n).trans
        ((hk n).trans (mapHas_map_condPair _ _ _ n).symm)

theorem inv_halve (p : Pattern) (hp : p.inv) : p.halve.inv := by
  obtain ⟨ht, hv, hk⟩ := hp
  unfold Pattern.halve
  split
  · exact ⟨ht, hv, hk⟩
  · refine ⟨?_, ?_, ?_⟩
    · intro e he
      obtain ⟨b, hb, rfl⟩ := List.mem_map.mp he
      simpa using length_halveArr b.2 (p.steps / 2) 0
    · intro e he
      obtain ⟨b, hb, rfl⟩ := List.mem_map.mp he
      split <;> rename_i hbb
      · simpa using length_halveArr b.2 (p.steps / 2) 1
      · exfalso
        have hmem := mapHas_of_mem _ _ hb
        rw [← hk b.1] at hmem
        exact hbb hmem
    · intro n
      show mapHas (p.tracks.map _) n = mapHas (p.velocities.map _) n
      exact (mapHas_map_snd _ _ n).trans
        ((hk n).trans (mapHas_map_condPair _ _ _ n).symm)

theorem inv_fromJSON (fresh : Pattern) (data : PatternJSON) (fid : String)
    (hwf : data.wf) : (fresh.fromJSON data fid).inv := by
  obtain ⟨htr, hvel⟩ := hwf
  unfold Pattern.fromJSON
  rcases hvv : data.velocities with _ | v
  · refine ⟨htr, ?_, ?_⟩
    · intro e he
      obtain ⟨b, hb, rfl⟩ := List.mem_map.mp he
      simp
    · intro n
      show mapHas data.tracks n
        = mapHas (data.tracks.map
            (fun e => (e.1, List.replicate data.steps (1 : ℚ)))) n
      exact (mapHas_map_snd _ _ n).symm
  · obtain ⟨h1, h2⟩ := hvel v hvv
    refine ⟨htr, ?_, ?_⟩
    · intro e he
      exact h1 e he
    · intro n
      show mapHas data.tracks n = mapHas v n
      exact h2 n


theorem toJSON_wf (p : Pattern) (hp : p.inv) : p.toJSON.wf := by
  obtain ⟨ht, hv, hk⟩ := hp
  refine ⟨ht, ?_⟩
  intro v hveq
  unfold Pattern.toJSON at hveq
  simp only at hveq
  cases hveq
  exact ⟨hv, hk⟩

set_option maxRecDepth 100000 in
/-- **C9** fails as stated: a step index out of bounds passed to
`recordNote` is neither clamped nor rejected — on a fresh 32-step
pattern (which satisfies the invariant), `recordNote(60, 40, 0.8)`
grows note 60's arrays to length 41 while the pattern still has 32
steps, breaking the length invariant. -/
theorem pattern_invariant_counterexample :
    (Pattern.new 32 "Untitled" "1").inv ∧
    ¬ ((Pattern.new 32 "Untitled" "1").recordNote 60 40 (4/5)).inv := by
  constructor
  · refine ⟨?_, ?_, fun n => rfl⟩ <;> intro e he <;> simp [Pattern.new] at he
  · intro hinv
    have hmem : ((60 : Nat), jsWrite (List.replicate 32 0) 40 1 0)
        ∈ ((Pattern.new 32 "Untitled" "1").recordNote 60 40 (4/5)).tracks := by
      decide
    have hsteps : ((Pattern.new 32 "Untitled" "1").recordNote 60 40 (4/5)).steps
        = 32 := by
      decide
    have hlen := hinv.1 _ hmem
    rw [hsteps, length_jsWrite] at hlen
    simp at hlen

/-- **C9** (amended): `addTrack`, `clear`, `clearTrack`, `shift`,
`double` and `halve` preserve the invariant that every note present in
the tracks map has arrays of identical length in both maps, equal to
the pattern's current step count; `recordNote` preserves it when the
step index is in bounds, and `fromJSON` establishes it for any
well-formed record (in particular any `toJSON` output of an invariant
pattern is well-formed).  But an out-of-bounds step index passed to
`recordNote` is NOT clamped or rejected: the JS array writes grow both
of the note's arrays to length `step + 1` (still equal to each other)
while the pattern's step count is unchanged, breaking the invariant. -/
theorem pattern_ops_preserve_invariant (p fresh : Pattern)
    (note step stepBig : Nat) (v : ℚ) (a : Int) (data : PatternJSON)
    (fid : String) (hp : p.inv) :
    (p.addTrack note).inv ∧
    p.clear.inv ∧
    (p.clearTrack note).inv ∧
    (p.shift a).inv ∧
    p.double.inv ∧
    p.halve.inv ∧
    (step < p.steps → (p.recordNote note step v).inv) ∧
    p.toJSON.wf ∧
    (data.wf → (fresh.fromJSON data fid).inv) ∧
    (p.steps ≤ stepBig →
      ∃ tr vel, mapGet (p.recordNote note stepBig v).tracks note = some tr ∧
        mapGet (p.recordNote note stepBig v).velocities note = some vel ∧
        tr.length = stepBig + 1 ∧ vel.length = stepBig + 1 ∧
        (p.recordNote note stepBig v).steps = p.steps) :=
  ⟨inv_addTrack p note hp, inv_clear p hp, inv_clearTrack p note hp,
   inv_shift p a hp, inv_double p hp, inv_halve p hp,
   fun hs => inv_recordNote p note step v hp hs,
   toJSON_wf p hp,
   fun hw => inv_fromJSON fresh data fid hw,
   fun hs => recordNote_out_of_bounds p note stepBig v hp hs⟩

set_option maxRecDepth 100000 in
/-- Witness for `pattern_ops_preserve_invariant` at a fresh 32-step
pattern, recording note 60 in bounds at step 5 and out of bounds at
step 40. -/
theorem pattern_ops_preserve_invariant_witness :
    ((Pattern.new 32 "Untitled" "1").inv ∧ (5 : Nat) < 32 ∧ (32 : Nat) ≤ 40 ∧
      ((Pattern.new 32 "Untitled" "1").toJSON).wf) ∧
    ((Pattern.new 32 "Untitled" "1").recordNote 60 5 (4/5)).inv ∧
    (∃ tr vel,
      mapGet ((Pattern.new 32 "Untitled" "1").recordNote 60 40 (4/5)).tracks 60
        = some tr ∧
      mapGet ((Pattern.new 32 "Untitled" "1").recordNote 60 40 (4/5)).velocities
        60 = some vel ∧
      tr.length = 41 ∧ vel.length = 41 ∧
      ((Pattern.new 32 "Untitled" "1").recordNote 60 40 (4/5)).steps = 32) := by
  have hinv : (Pattern.new 32 "Untitled" "1").inv := by
    refine ⟨?_, ?_, fun n => rfl⟩ <;> intro e he <;> simp [Pattern.new] at he
  have h := pattern_ops_preserve_invariant (Pattern.new 32 "Untitled" "1")
    (Pattern.new 32 "Untitled" "2") 60 5 40 (4/5) 0
    ((Pattern.new 32 "Untitled" "1").toJSON) "9" hinv
  exact ⟨⟨hinv, by norm_num, by norm_num, h.2.2.2.2.2.2.2.1⟩,
    h.2.2.2.2.2.2.1 (by show (5:Nat) < 32; norm_num),
    h.2.2.2.2.2.2.2.2.2 (by show (32:Nat) ≤ 40; norm_num)⟩

/-! ### SampleManager triggering (launchpad35.js lines 2359–2593) and
the v3.7 `BeatSequencer.scheduleSampleAtTime` (launchpad37.js 4131–4159) -/

/-- The per-note sample record fields used by `triggerSound` and
`setSampleRange`; `endFrac` is the source's `sample.end` (`end` is
reserved in Lean).  The source reads the fractions through
`sample.start || 0` and `sample.end || 1`. -/
structure Sample where
  bufferDuration : ℚ
  start : ℚ
  endFrac : ℚ
deriving DecidableEq, Repr

/-- The parameters v3.5's `triggerSound` computes for a new voice: the
gain value scheduled on the gain node and the `(when, offset, duration)`
arguments passed to `source.start`. -/
structure Voice where
  velocityGain : ℚ
  startAt : ℚ
  startOffset : ℚ
  duration : ℚ
deriving DecidableEq, Repr

/-- `SampleManager.triggerSound(note, velocity = 1, time)`
(launchpad35.js 2359–2498): `none` when no sample is loaded for the
note or the note was triggered within the 20 ms debounce window;
otherwise the computed voice.  The source overwrites its `velocity`
argument with `1` (line 2367) before applying the
`min(Math.sqrt(velocity), 1.0) * 0.7` gain curve. -/
def triggerSound (samples : List (Nat × Sample)) (recentlyTriggered : Bool)
    (note : Nat) (velocity : ℚ) (time : ℚ) : Option Voice :=
  match mapGet samples note with
  | none => none
  | some sample =>
    let velocity := (1 : ℚ)
    if recentlyTriggered then none
    else
      let velocityGain := min (Rat.sqrt velocity) 1 * (7/10)
      let startTime := sample.bufferDuration *
        (if sample.start = 0 then 0 else sample.start)
      let endTime := sample.bufferDuration *
        (if sample.endFrac = 0 then 1 else sample.endFrac)
      let duration := endTime - startTime
      some ⟨velocityGain, time, startTime, duration⟩

/-- `SampleManager.setSampleRange(note, start, end)` (launchpad35.js
2578–2593): clamps each fraction to `[0, 1]` independently and stores
them; no-op when the note has no sample. -/
def setSampleRange (samples : List (Nat × Sample)) (note : Nat)
    (start endv : ℚ) : List (Nat × Sample) :=
  match mapGet samples note with
  | none => samples
  | some sample =>
    mapSet samples note
      { sample with start := max 0 (min start 1), endFrac := max 0 (min endv 1) }

/-- The slice of a v3.7 sample record used by `scheduleSampleAtTime`. -/
structure Sample37 where
  gain : ℚ
  startTime : ℚ
  endTime : ℚ
deriving DecidableEq, Repr

/-- `BeatSequencer.scheduleSampleAtTime(note, velocity, time)`
(launchpad37.js 4131–4159): the gain-node value and the
`source.start` arguments; `none` when no sample is loaded. -/
def scheduleSampleAtTime (samples : List (Nat × Sample37)) (note : Nat)
    (velocity : ℚ) (time : ℚ) : Option Voice :=
  match mapGet samples note with
  | none => none
  | some sample =>
    some ⟨velocity / 127 * sample.gain, time, sample.startTime,
      sample.endTime - sample.startTime⟩

/-- The gain curve claimed by the specification: the square-root curve
of the velocity argument passed to the trigger call, capped at 1,
scaled by the 0.7 headroom ceiling. -/
def specVelocityGain (v : ℚ) : ℚ := min (Rat.sqrt v) 1 * (7/10)

/-- **C5** fails on the code: with a sample loaded, not debounced, and
velocity 1/4 (whose square root is exact), v3.5's `triggerSound`
applies gain 0.7 — the `velocity = 1` overwrite discards the caller's
velocity — while the claimed curve min(√v,1)·0.7 gives 0.35.  The
audible gain is therefore not a function of the velocity argument at
all. -/
theorem velocity_gain_counterexample :
    (triggerSound [(36, ⟨1, 0, 1⟩)] false 36 (1/4) 0).map Voice.velocityGain
      = some (7/10) ∧
    specVelocityGain (1/4) = 7/20 ∧
    ¬ (triggerSound [(36, ⟨1, 0, 1⟩)] false 36 (1/4) 0).map Voice.velocityGain
      = some (specVelocityGain (1/4)) := by
  have hs1 : Rat.sqrt 1 = 1 := by
    have := Rat.sqrt_eq (1 : ℚ)
    simpa using this
  have hs4 : Rat.sqrt (1/4 : ℚ) = 1/2 := by
    have h := Rat.sqrt_eq (1/2 : ℚ)
    have h2 : ((1:ℚ)/2) * (1/2) = 1/4 := by norm_num
    rw [h2] at h
    rw [h]
    rw [abs_of_nonneg (by norm_num)]
  refine ⟨?_, ?_, ?_⟩
  · show some (min (Rat.sqrt 1) 1 * (7/10)) = some (7/10)
    rw [hs1]
    norm_num
  · unfold specVelocityGain
    rw [hs4]
    norm_num
  · intro h
    rw [show (triggerSound [(36, ⟨1, 0, 1⟩)] false 36 (1/4) 0).map
        Voice.velocityGain = some (min (Rat.sqrt 1) 1 * (7/10)) from rfl] at h
    unfold specVelocityGain at h
    rw [hs1, hs4] at h
    norm_num at h

/-- **C5** (amended): in v3.5, `triggerSound` overwrites the velocity
argument with 1 before applying the square-root curve, so every voice
(sample loaded, outside the debounce window) gets the constant gain
min(√1,1)·0.7 = 0.7 regardless of the velocity passed; in v3.7,
`scheduleSampleAtTime` applies a linear gain `(velocity/127)·sample.gain`.
The square-root formula appears in the v3.5 source but is never applied
to the caller's velocity. -/
theorem velocity_gain_spec (samples : List (Nat × Sample))
    (samples37 : List (Nat × Sample37)) (note : Nat) (v t : ℚ)
    (s : Sample) (s37 : Sample37)
    (hs : mapGet samples note = some s)
    (hs37 : mapGet samples37 note = some s37) :
    (triggerSound samples false note v t).map Voice.velocityGain
      = some (7/10) ∧
    (scheduleSampleAtTime samples37 note v t).map Voice.velocityGain
      = some (v / 127 * s37.gain) := by
  have hs1 : Rat.sqrt 1 = 1 := by
    have := Rat.sqrt_eq (1 : ℚ)
    simpa using this
  constructor
  · unfold triggerSound
    rw [hs]
    simp only [if_false, Option.map_some, Bool.false_eq_true]
    rw [hs1]
    norm_num
  · unfold scheduleSampleAtTime
    rw [hs37]
    rfl

/-- Witness for `velocity_gain_spec` at a singleton sample table and
velocity 0.9. -/
theorem velocity_gain_spec_witness :
    (mapGet [((36 : Nat), (⟨1, 0, 1⟩ : Sample))] 36 = some ⟨1, 0, 1⟩ ∧
      mapGet [((36 : Nat), (⟨1, 0, 1⟩ : Sample37))] 36 = some ⟨1, 0, 1⟩) ∧
    (triggerSound [(36, ⟨1, 0, 1⟩)] false 36 (9/10) 0).map Voice.velocityGain
      = some (7/10) :=
  ⟨⟨rfl, rfl⟩,
   (velocity_gain_spec [(36, ⟨1, 0, 1⟩)] [(36, ⟨1, 0, 1⟩)] 36 (9/10) 0
      ⟨1, 0, 1⟩ ⟨1, 0, 1⟩ rfl rfl).1⟩

/-- **C10**: `setSampleRange(note, start, end)` clamps `start` and
`end` to `[0, 1]` independently but does not enforce `start ≤ end`:
for a loaded note, `setSampleRange(note, 0.8, 0.2)` stores the
inverted trim region (0.8, 0.2), and a subsequent `triggerSound` for
that note computes the negative playback duration
`bufferDuration·0.2 − bufferDuration·0.8 < 0` and passes it to the
audio source, rather than rejecting or reordering the region. -/
theorem setSampleRange_inverted (samples : List (Nat × Sample)) (note : Nat)
    (s : Sample) (a b : ℚ) (hs : mapGet samples note = some s)
    (hd : 0 < s.bufferDuration) :
    (mapGet (setSampleRange samples note a b) note
      = some { s with start := max 0 (min a 1), endFrac := max 0 (min b 1) }) ∧
    max 0 (min (4/5 : ℚ) 1) > max 0 (min (1/5 : ℚ) 1) ∧
    (∃ voice,
      triggerSound (setSampleRange samples note (4/5) (1/5)) false note 1 0
        = some voice ∧
      voice.duration = s.bufferDuration * (1/5) - s.bufferDuration * (4/5) ∧
      voice.duration < 0) := by
  have hm45 : max 0 (min (4/5 : ℚ) 1) = 4/5 := by
    rw [min_eq_left (by norm_num : (4/5 : ℚ) ≤ 1),
      max_eq_right (by norm_num : (0 : ℚ) ≤ 4/5)]
  have hm15 : max 0 (min (1/5 : ℚ) 1) = 1/5 := by
    rw [min_eq_left (by norm_num : (1/5 : ℚ) ≤ 1),
      max_eq_right (by norm_num : (0 : ℚ) ≤ 1/5)]
  have hstore : ∀ x y : ℚ, mapGet (setSampleRange samples note x y) note
      = some { s with start := max 0 (min x 1), endFrac := max 0 (min y 1) } := by
    intro x y
    unfold setSampleRange
    rw [hs]
    exact mapGet_mapSet_self _ _ _
  refine ⟨hstore a b, by rw [hm45, hm15]; norm_num, ?_⟩
  have hget := hstore (4/5) (1/5)
  rw [hm45, hm15] at hget
  refine ⟨⟨min (Rat.sqrt 1) 1 * (7/10), 0,
    s.bufferDuration * (4/5),
    s.bufferDuration * (1/5) - s.bufferDuration * (4/5)⟩, ?_, rfl, ?_⟩
  · unfold triggerSound
    rw [hget]
    simp only [Bool.false_eq_true, if_false]
    congr 2
    · show s.bufferDuration * (if (4/5 : ℚ) = 0 then 0 else 4/5)
        = s.bufferDuration * (4/5)
      rw [if_neg (by norm_num)]
    · show s.bufferDuration * (if (1/5 : ℚ) = 0 then 1 else 1/5)
          - s.bufferDuration * (if (4/5 : ℚ) = 0 then 0 else 4/5)
        = s.bufferDuration * (1/5) - s.bufferDuration * (4/5)
      rw [if_neg (by norm_num : ¬ (1/5 : ℚ) = 0),
        if_neg (by norm_num : ¬ (4/5 : ℚ) = 0)]
  · show s.bufferDuration * (1/5) - s.bufferDuration * (4/5) < 0
    nlinarith

/-- Witness for `setSampleRange_inverted` at a singleton sample table
with a 2-second buffer. -/
theorem setSampleRange_inverted_witness :
    (mapGet [((36 : Nat), (⟨2, 0, 1⟩ : Sample))] 36 = some ⟨2, 0, 1⟩ ∧
      (0 : ℚ) < (⟨2, 0, 1⟩ : Sample).bufferDuration) ∧
    (∃ voice,
      triggerSound (setSampleRange [(36, ⟨2, 0, 1⟩)] 36 (4/5) (1/5)) false 36 1 0
        = some voice ∧
      voice.duration = (⟨2, 0, 1⟩ : Sample).bufferDuration * (1/5)
          - (⟨2, 0, 1⟩ : Sample).bufferDuration * (4/5) ∧
      voice.duration < 0) :=
  ⟨⟨rfl, by norm_num⟩,
   (setSampleRange_inverted [(36, ⟨2, 0, 1⟩)] 36 ⟨2, 0, 1⟩ (4/5) (1/5) rfl
      (by norm_num)).2.2⟩

/-! ### Step dispatcher: the clock's pattern callback
(`LaunchpadApp.setupClock`, launchpad35.js 5306–5379) and the manual
trigger path (`handleBeatModePadPress`, 6381–6437) -/

/-- The velocity the sequenced pass reads:
`pattern.velocities?.get(note)?.[step] || 1.0` (a JS `||`: an explicit
0 also falls back to 1). -/
def seqVelocity (p : Pattern) (note step : Nat) : ℚ :=
  match mapGet p.velocities note with
  | none => 1
  | some arr =>
    match arr[step]? with
    | none => 1
    | some v => if v = 0 then 1 else v

/-- One sequenced pass of the clock's pattern callback for a step event
`(step, time)` on the current pattern: clears the manually-triggered
set when the step has changed, then collects into one batch every note
of the tracks map that was not manually triggered this step, is active
at `step`, and has a sample loaded, all at the common adjusted time
`time + 0.005` (the 5 ms look-ahead compensation).  Returns the updated
pattern and the batch handed to `triggerSound`. -/
def seqPass (p : Pattern) (samples : List Nat) (step : Nat) (time : ℚ) :
    Pattern × List (Nat × ℚ × ℚ) :=
  let p := p.clearTriggeredNotesIfNeeded step
  let adjustedTime := time + 1/200
  (p, p.tracks.filterMap (fun e =>
    if e.1 ∈ p.manuallyTriggeredNotes then none
    else if (e.2[step]?).getD 0 ≠ 0 then
      if e.1 ∈ samples then some (e.1, seqVelocity p e.1 step, adjustedTime)
      else none
    else none))

/-- The clock's pattern callback: returns nothing at all when
sequencing is disabled or no pattern is current. -/
def stepCallback (patternEnabled : Bool) (pat : Option Pattern)
    (samples : List Nat) (step : Nat) (time : ℚ) :
    Option (Pattern × List (Nat × ℚ × ℚ)) :=
  if patternEnabled then pat.map (fun p => seqPass p samples step time)
  else none

/-- `handleBeatModePadPress(note, velocity)` restricted to its effect
on the current pattern (the immediate sound playback and UI updates are
side channels): clears the triggered set if the step changed, adds the
note to the manually-triggered set, records it at the clock's current
step with the given velocity, and clears the isNew flag. -/
def handleBeatModePadPress (p : Pattern) (clockStep note : Nat)
    (velocity : ℚ) : Pattern :=
  let p := p.clearTriggeredNotesIfNeeded clockStep
  let p := { p with manuallyTriggeredNotes :=
    if note ∈ p.manuallyTriggeredNotes then p.manuallyTriggeredNotes
    else p.manuallyTriggeredNotes ++ [note] }
  let p := p.recordNote note clockStep velocity
  { p with isNew := false }

theorem recordNote_preserves_mtn (p : Pattern) (note step : Nat) (v : ℚ) :
    (p.recordNote note step v).manuallyTriggeredNotes
        = p.manuallyTriggeredNotes ∧
      (p.recordNote note step v).lastStepTriggered = p.lastStepTriggered := by
  unfold Pattern.recordNote
  split <;> exact ⟨rfl, rfl⟩

theorem handleBeatModePadPress_state (p : Pattern) (s note : Nat) (v : ℚ)
    (hfresh : p.lastStepTriggered ≠ (s : Int)) :
    (handleBeatModePadPress p s note v).manuallyTriggeredNotes = [note] ∧
    (handleBeatModePadPress p s note v).lastStepTriggered = (s : Int) := by
  unfold handleBeatModePadPress Pattern.clearTriggeredNotesIfNeeded
  rw [if_pos hfresh]
  simp only [List.not_mem_nil, if_neg, List.nil_append]
  constructor
  · exact (recordNote_preserves_mtn _ note s v).1
  · exact (recordNote_preserves_mtn _ note s v).2

theorem clearTriggered_id (p : Pattern) (s : Nat)
    (h : p.lastStepTriggered = (s : Int)) :
    p.clearTriggeredNotesIfNeeded s = p := by
  unfold Pattern.clearTriggeredNotesIfNeeded
  rw [if_neg (by simp [h])]

theorem handleBeatModePadPress_getStep (p : Pattern) (s note : Nat) (v : ℚ) :
    (handleBeatModePadPress p s note v).getStep note s = 1 := by
  unfold handleBeatModePadPress
  exact recordNote_getStep_self _ note s v

/-- **C6**: if a note is manually triggered during a step while the
sequencer is running (the clock's current step being `s`, freshly
entered), the sequenced pass for that same step does not re-trigger
that note, but still batches every other note active at that step with
a loaded sample (at the common compensated time `time + 0.005`); the
manually triggered note is recorded into the current pattern at the
clock's current step index. -/
theorem manual_overrides_sequenced (p : Pattern) (samples : List Nat)
    (s note : Nat) (v time : ℚ)
    (hfresh : p.lastStepTriggered ≠ (s : Int)) :
    (handleBeatModePadPress p s note v).getStep note s = 1 ∧
    stepCallback true (some (handleBeatModePadPress p s note v)) samples s time
      = some (seqPass (handleBeatModePadPress p s note v) samples s time) ∧
    (seqPass (handleBeatModePadPress p s note v) samples s time).1
      = handleBeatModePadPress p s note v ∧
    (∀ b ∈ (seqPass (handleBeatModePadPress p s note v) samples s time).2,
      b.1 ≠ note) ∧
    (∀ m, m ≠ note → m ∈ samples →
      (handleBeatModePadPress p s note v).getStep m s ≠ 0 →
      (m, seqVelocity (handleBeatModePadPress p s note v) m s, time + 1/200)
        ∈ (seqPass (handleBeatModePadPress p s note v) samples s time).2) := by
  obtain ⟨hmtn, hlst⟩ := handleBeatModePadPress_state p s note v hfresh
  have hclear := clearTriggered_id (handleBeatModePadPress p s note v) s hlst
  refine ⟨handleBeatModePadPress_getStep p s note v, rfl, ?_, ?_, ?_⟩
  · show (handleBeatModePadPress p s note v).clearTriggeredNotesIfNeeded s = _
    exact hclear
  · intro b hb
    unfold seqPass at hb
    rw [hclear] at hb
    obtain ⟨e, he, hfe⟩ := List.mem_filterMap.mp hb
    rw [hmtn] at hfe
    split at hfe
    · cases hfe
    · split at hfe
      · split at hfe
        · cases hfe
          rename_i hnotmem _ _
          intro hb1
          exact hnotmem (by simpa using hb1)
        · cases hfe
      · cases hfe
  · intro m hm hsamp hstep
    rcases hmg : mapGet (handleBeatModePadPress p s note v).tracks m with _ | arr
    · exfalso
      apply hstep
      unfold Pattern.getStep
      rw [hmg]
      rfl
    · rcases hax : arr[s]? with _ | x
      · exfalso
        apply hstep
        unfold Pattern.getStep
        rw [hmg]
        simp [hax]
      · have hx : x ≠ 0 := by
          intro hx0
          apply hstep
          unfold Pattern.getStep
          rw [hmg]
          simp [hax, hx0]
        unfold seqPass
        rw [hclear]
        refine List.mem_filterMap.mpr ⟨(m, arr), mapGet_mem _ _ _ hmg, ?_⟩
        rw [hmtn]
        rw [if_neg (by simpa using hm)]
        rw [if_pos (by simpa [hax] using hx)]
        rw [if_pos hsamp]

/-- Witness for `manual_overrides_sequenced`: a fresh 32-step pattern
with note 38 active at step 4; note 36 is manually pressed during step
4, and the sequenced pass still contains note 38 but not note 36. -/
theorem manual_overrides_sequenced_witness :
    (((Pattern.new 32 "w" "1").recordNote 38 4 1).lastStepTriggered
      ≠ ((4 : Nat) : Int)) ∧
    (handleBeatModePadPress ((Pattern.new 32 "w" "1").recordNote 38 4 1)
      4 36 1).getStep 36 4 = 1 ∧
    (38, seqVelocity (handleBeatModePadPress
        ((Pattern.new 32 "w" "1").recordNote 38 4 1) 4 36 1) 38 4, (0 : ℚ) + 1/200)
      ∈ (seqPass (handleBeatModePadPress
        ((Pattern.new 32 "w" "1").recordNote 38 4 1) 4 36 1) [36, 38] 4 0).2 :=
  ⟨by decide,
   (manual_overrides_sequenced ((Pattern.new 32 "w" "1").recordNote 38 4 1)
      [36, 38] 4 36 1 0 (by decide)).1,
   (manual_overrides_sequenced ((Pattern.new 32 "w" "1").recordNote 38 4 1)
      [36, 38] 4 36 1 0 (by decide)).2.2.2.2 38 (by decide) (by decide)
      (by decide)⟩
